import Mathlib

/-!
# Verification of the binharness agent server

A shallow embedding of the `bh_agent_server` resource state machine and its
helper algorithms (`read_chars`, `read_generic`, `split_lines`), together with
proofs and refutations of the specified properties.

Conventions:
* Rust `u64` counters are modelled as `Nat` with explicit wrapping `% 2^64`
  where the source increments them.
* Bytes are modelled as `Nat` (values are only ever produced in `0..256`).
* `HashMap` is modelled as an association list with insert-replaces semantics.
* Fallible operations return `Except AgentError`; a Rust `unwrap` on `None`
  (a panic) is modelled by a dedicated `panicked` outcome.
-/

namespace BhAgent

/-- Modulus of a Rust `u64`. -/
def U64MOD : Nat := 2 ^ 64

abbrev EnvironmentId := Nat
abbrev ProcessId := Nat
abbrev FileId := Nat

/-- `bh_agent_common::types::ProcessChannel`. -/
inductive ProcessChannel
  | Stdin
  | Stdout
  | Stderr
  deriving DecidableEq, Repr

/-- `bh_agent_common::types::Redirection`. -/
inductive Redirection
  | None
  | Save
  deriving DecidableEq, Repr

/-- `bh_agent_common::types::FileOpenMode`. -/
inductive FileOpenMode
  | Read
  | Write
  | ExclusiveWrite
  | Append
  | Update
  deriving DecidableEq, Repr

/-- `bh_agent_common::types::FileOpenType`. -/
inductive FileOpenType
  | Binary
  | Text
  deriving DecidableEq, Repr

/-- `bh_agent_common::agent_error::AgentError`. -/
inductive AgentError
  | InvalidEnvironmentId
  | IoError
  | InvalidFileDescriptor
  | InvalidSeekWhence
  | LockError
  | ProcessStartFailure
  | InvalidProcessId
  | ProcessChannelNotPiped
  | Inconsistent
  | Unknown
  deriving DecidableEq, Repr

/-- `bh_agent_common::types::RemotePOpenConfig` (the fields the server reads). -/
structure RemotePOpenConfig where
  argv : List String
  stdin : Redirection
  stdout : Redirection
  stderr : Redirection
  executable : Option String
  env : Option (List (String × String))
  cwd : Option String
  deriving DecidableEq, Repr

/-! ## Association-list model of `HashMap<Nat, β>` -/

/-- A `HashMap`, as an association list whose keys are unique
(`insert` replaces, `remove` deletes). -/
abbrev Map (α β : Type) : Type := List (α × β)

namespace Map

variable {α β : Type} [DecidableEq α]

def empty : Map α β := []

def get? (m : Map α β) (k : α) : Option β :=
  match m with
  | [] => none
  | (k', v) :: rest => if k' = k then some v else get? rest k

def insert (m : Map α β) (k : α) (v : β) : Map α β :=
  (k, v) :: m.filter (fun p => p.1 ≠ k)

def remove (m : Map α β) (k : α) : Map α β :=
  m.filter (fun p => p.1 ≠ k)

def contains (m : Map α β) (k : α) : Bool :=
  (get? m k).isSome

def keys (m : Map α β) : List α :=
  m.map Prod.fst

/-- Update the value at an existing key in place (used to store back a
mutated file handle). -/
def update (m : Map α β) (k : α) (v : β) : Map α β :=
  m.map (fun p => if p.1 = k then (k, v) else p)

end Map

/-! ## Byte streams

Models a `File`/`Cursor` byte source: `data` is the full backing byte
sequence, `pos` the current read/write position.  A `read` of `n` bytes
returns `min n remaining` bytes and advances the position (the semantics of
`Cursor::read` and of a plain file read). -/

structure ByteStream where
  data : List Nat
  pos : Nat
  deriving DecidableEq, Repr

namespace ByteStream

def remaining (s : ByteStream) : Nat := s.data.length - s.pos

/-- `Read::read` into a buffer of size `n`: returns the bytes actually read. -/
def read (s : ByteStream) (n : Nat) : List Nat × ByteStream :=
  let chunk := (s.data.drop s.pos).take n
  (chunk, { s with pos := s.pos + chunk.length })

/-- `Read::read_to_end`: all bytes from the current position. -/
def readToEnd (s : ByteStream) : List Nat × ByteStream :=
  ((s.data.drop s.pos), { s with pos := s.data.length })

/-- `Write::write` at the current position (zero-filling a gap past EOF,
as a sparse file read back would). Returns the byte count written. -/
def write (s : ByteStream) (bs : List Nat) : Nat × ByteStream :=
  let pre := s.data.take s.pos ++ List.replicate (s.pos - s.data.length) 0
  (bs.length,
    { data := pre ++ bs ++ s.data.drop (s.pos + bs.length),
      pos := s.pos + bs.length })

end ByteStream

/-- `std::io::SeekFrom`. -/
inductive SeekFrom
  | Start (n : Nat)
  | Current (n : Int)
  | FromEnd (n : Int)
  deriving DecidableEq, Repr

namespace ByteStream

/-- `Seek::seek`: returns the new position, or an I/O error when the
target position would be negative. -/
def seek (s : ByteStream) (f : SeekFrom) : Except Unit (Nat × ByteStream) :=
  match f with
  | .Start n => .ok (n, { s with pos := n })
  | .Current off =>
      let tgt : Int := (s.pos : Int) + off
      if tgt < 0 then .error () else .ok (tgt.toNat, { s with pos := tgt.toNat })
  | .FromEnd off =>
      let tgt : Int := (s.data.length : Int) + off
      if tgt < 0 then .error () else .ok (tgt.toNat, { s with pos := tgt.toNat })

end ByteStream

/-! ## Line splitter (`src/bh_agent_server/src/util/read_lines.rs`) -/

/-- The separator predicate of `split_lines`: `*x == b'\n' || *x == 0x0D ||
*x == 0x0A` (note `b'\n' = 0x0A`, so the set is `{LF, CR}`). -/
def isLineSep (b : Nat) : Bool := b = 0x0A ∨ b = 0x0D ∨ b = 0x0A

/-- Rust `slice::split(pred)`: yields the (possibly empty) segments between
separator elements; an empty slice yields one empty segment. -/
def sliceSplit (p : Nat → Bool) : List Nat → List (List Nat)
  | [] => [[]]
  | b :: bs =>
      if p b then [] :: sliceSplit p bs
      else
        match sliceSplit p bs with
        | [] => [[b]]
        | s :: ss => (b :: s) :: ss

/-- `split_lines`: split on LF/CR and keep only the non-empty segments. -/
def split_lines (buffer : List Nat) : List (List Nat) :=
  (sliceSplit isLineSep buffer).filter (fun x => !x.isEmpty)

/-- `read_lines`: read the stream to the end and split it into lines. -/
def read_lines (s : ByteStream) : List (List Nat) × ByteStream :=
  let (buffer, s') := s.readToEnd
  (split_lines buffer, s')

/-- Specification-side line decomposition, written from the spec's words:
the maximal non-empty runs of non-separator bytes, in order, with every
separator occurrence acting as a boundary and empty segments discarded. -/
def linesSpec : List Nat → List (List Nat)
  | [] => []
  | b :: bs =>
      if isLineSep b then linesSpec bs
      else (b :: bs.takeWhile (fun c => !isLineSep c)) ::
        linesSpec (bs.dropWhile (fun c => !isLineSep c))
termination_by l => l.length
decreasing_by
  · simp only [List.length_cons]; omega
  · simp only [List.length_cons]
    have : (bs.dropWhile (fun c => !isLineSep c)).length ≤ bs.length := by
      induction bs with
      | nil => simp
      | cons c cs ih =>
        rw [List.dropWhile_cons]
        by_cases h : (!isLineSep c) = true
        · rw [if_pos h]; simp only [List.length_cons]; omega
        · rw [if_neg h]
    omega

/-! ## UTF-8 decoding (the semantics of `std::str::from_utf8`)

`from_utf8` either succeeds on the whole buffer or reports the length of the
longest valid prefix (`valid_up_to`).  We model the decoded string as the
list of per-character byte chunks: `chars().count()` is the number of chunks
and `String::into_bytes` is their concatenation. -/

/-- A UTF-8 continuation byte, `0x80..=0xBF`. -/
def isCont (b : Nat) : Bool := 0x80 ≤ b ∧ b ≤ 0xBF

/-- The byte length (1-4) of the valid UTF-8 character encoding at the head
of the byte list, or `none` when the head is not a complete valid character
(the exact validity ranges of `std::str::from_utf8`: no overlong forms, no
surrogates, maximum `U+10FFFF`). -/
def chunkLen : List Nat → Option Nat
  | [] => none
  | b0 :: rest =>
    if b0 < 0x80 then some 1
    else if 0xC2 ≤ b0 ∧ b0 ≤ 0xDF then
      match rest with
      | b1 :: _ => if isCont b1 then some 2 else none
      | _ => none
    else if 0xE0 ≤ b0 ∧ b0 ≤ 0xEF then
      match rest with
      | b1 :: b2 :: _ =>
          if ((if b0 = 0xE0 then 0xA0 else 0x80) ≤ b1 ∧
              b1 ≤ (if b0 = 0xED then 0x9F else 0xBF)) ∧ isCont b2 then
            some 3
          else none
      | _ => none
    else if 0xF0 ≤ b0 ∧ b0 ≤ 0xF4 then
      match rest with
      | b1 :: b2 :: b3 :: _ =>
          if ((if b0 = 0xF0 then 0x90 else 0x80) ≤ b1 ∧
              b1 ≤ (if b0 = 0xF4 then 0x8F else 0xBF)) ∧ isCont b2 ∧ isCont b3 then
            some 4
          else none
      | _ => none
    else none

/-- Decode one UTF-8 character at the head of the byte list, returning its
byte chunk and the remainder. -/
def decodeChunk (l : List Nat) : Option (List Nat × List Nat) :=
  match chunkLen l with
  | none => none
  | some k => some (l.take k, l.drop k)

/-- Fuel-indexed maximal valid-prefix decoding.  A decoded chunk always
consumes at least one byte, so fuel `l.length` is always enough. -/
def utf8ChunksF : Nat → List Nat → List (List Nat) × List Nat
  | 0, l => ([], l)
  | fuel + 1, l =>
      match decodeChunk l with
      | none => ([], l)
      | some (c, rest) =>
          let (cs, rem) := utf8ChunksF fuel rest
          (c :: cs, rem)

/-- Maximal valid-prefix decoding: the chunks of the longest valid UTF-8
prefix, and the undecodable remainder.  `from_utf8` succeeds iff the
remainder is empty; otherwise `valid_up_to` is the total chunk length. -/
def utf8Chunks (l : List Nat) : List (List Nat) × List Nat :=
  utf8ChunksF l.length l

/-! ## Character-aware reader (`src/bh_agent_server/src/util/read_chars.rs`) -/

/-- The `while` loop of `read_chars`.  `result` is the accumulated string as
character chunks, `buffer` the undecoded bytes on hand.  `fuel` dominates the
iteration count: every iteration that recurses has read at least one fresh
byte from the reader, so `reader.remaining + 1` is always enough. -/
def readCharsLoop (fuel : Nat) (reader : ByteStream) (n : Nat)
    (result : List (List Nat)) (buffer : List Nat) :
    List (List Nat) × ByteStream :=
  match fuel with
  | 0 => (result, reader)
  | fuel + 1 =>
    if result.length < n ∧ buffer ≠ [] then
      let (chunks, rem) := utf8Chunks buffer
      if rem.isEmpty then
        -- `Ok(s)`: push the whole decode and break
        (result ++ chunks, reader)
      else
        -- `Err` with `valid_up_to > 0`: push the valid prefix and drain it;
        -- with `valid_up_to = 0` nothing happens (`chunks = []`, `rem = buffer`)
        let result' := result ++ chunks
        if result'.length < n then
          let (extra, reader') := reader.read (n - result'.length)
          if extra.isEmpty then (result', reader')
          else readCharsLoop fuel reader' n result' (rem ++ extra)
        else (result', reader)
    else (result, reader)

/-- `read_chars`: read up to `n` characters (not bytes), returning their
UTF-8 bytes. -/
def read_chars (reader : ByteStream) (n : Nat) : List Nat × ByteStream :=
  let (buffer, r1) := reader.read n
  let (chunks, r2) := readCharsLoop (r1.remaining + 1) r1 n [] buffer
  (chunks.flatten, r2)

/-- `read_generic` (`src/bh_agent_server/src/util/read_chars.rs` lines 8-17):
binary mode reads into a zero-initialized buffer of size `n` and returns the
whole buffer; text mode delegates to `read_chars`. -/
def read_generic (file : ByteStream) (n : Nat) (t : FileOpenType) :
    List Nat × ByteStream :=
  match t with
  | .Binary =>
      let (bytesRead, f') := file.read n
      (bytesRead ++ List.replicate (n - bytesRead.length) 0, f')
  | .Text => read_chars file n

/-! ## Server state (`src/bh_agent_server/src/state.rs`) -/

/-- A spawned process (`subprocess::Popen`): the OS process plus its up to
three piped streams.  A stream is `some` exactly when the corresponding
redirection was `Pipe`. -/
structure Proc where
  stdin : Option ByteStream
  stdout : Option ByteStream
  stderr : Option ByteStream
  deriving DecidableEq, Repr

/-- `BhAgentState`: all mutable server state. -/
structure BhAgentState where
  files : Map Nat ByteStream
  file_modes : Map Nat FileOpenMode
  file_types : Map Nat FileOpenType
  processes : Map Nat Proc
  proc_stdin_ids : Map Nat ProcessId
  proc_stdout_ids : Map Nat ProcessId
  proc_stderr_ids : Map Nat ProcessId
  next_file_id : Nat
  next_process_id : Nat
  deriving DecidableEq, Repr

/-- The server-side filesystem, path contents by path. -/
abbrev Fs := Map String (List Nat)

namespace BhAgentState

/-- `BhAgentState::new`. -/
def new : BhAgentState :=
  { files := [], file_modes := [], file_types := [], processes := [],
    proc_stdin_ids := [], proc_stdout_ids := [], proc_stderr_ids := [],
    next_file_id := 0, next_process_id := 0 }

/-- `take_file_id`: return the counter and increment it (wrapping `u64`). -/
def takeFileId (s : BhAgentState) : FileId × BhAgentState :=
  (s.next_file_id, { s with next_file_id := (s.next_file_id + 1) % U64MOD })

/-- `take_proc_id`. -/
def takeProcId (s : BhAgentState) : ProcessId × BhAgentState :=
  (s.next_process_id,
    { s with next_process_id := (s.next_process_id + 1) % U64MOD })

/-- `file_has_any_mode`: mode-membership query against the plain-file mode
table only. -/
def file_has_any_mode (s : BhAgentState) (fd : FileId)
    (modes : List FileOpenMode) : Except AgentError Bool :=
  match s.file_modes.get? fd with
  | none => .error .InvalidFileDescriptor
  | some m => .ok (modes.contains m)

/-- `file_type`. -/
def file_type (s : BhAgentState) (fd : FileId) :
    Except AgentError FileOpenType :=
  match s.file_types.get? fd with
  | none => .error .InvalidFileDescriptor
  | some t => .ok t

end BhAgentState

/-- `std::fs::OpenOptions` flags, in field order
read / write / append / truncate / create / create_new. -/
structure OpenOpts where
  read : Bool
  write : Bool
  append : Bool
  truncate : Bool
  create : Bool
  create_new : Bool
  deriving DecidableEq, Repr

/-- The flag translation in `open_path` (state.rs lines 88-95).  Note the
`Write` arm sets `write(true).create(true)` and—exactly as in the source—
does NOT set `truncate`. -/
def openOptsFor (mode : FileOpenMode) : OpenOpts :=
  match mode with
  | .Read => ⟨true, false, false, false, false, false⟩
  | .Write => ⟨false, true, false, false, true, false⟩
  | .ExclusiveWrite => ⟨false, true, false, false, false, true⟩
  | .Append => ⟨false, false, true, false, false, false⟩
  | .Update => ⟨true, true, false, false, false, false⟩

/-- OS `open` semantics for the flag combinations reachable from
`openOptsFor`: `create_new` fails on an existing path and creates an empty
file otherwise; `truncate` empties an existing file; a missing path errors
unless `create`/`create_new` is set. -/
def osOpen (opts : OpenOpts) (path : String) (fs : Fs) :
    Except Unit (ByteStream × Fs) :=
  if opts.create_new then
    match fs.get? path with
    | some _ => .error ()
    | none => .ok (⟨[], 0⟩, fs.insert path [])
  else
    match fs.get? path with
    | some content =>
        let content' := if opts.truncate then [] else content
        .ok (⟨content', 0⟩, fs.insert path content')
    | none =>
        if opts.create then .ok (⟨[], 0⟩, fs.insert path [])
        else .error ()

namespace BhAgentState

/-- `open_path`: translate the mode, open the path, allocate a `FileId` and
record handle, mode and type. -/
def open_path (s : BhAgentState) (fs : Fs) (path : String)
    (mode : FileOpenMode) (type_ : FileOpenType) :
    Except AgentError (FileId × BhAgentState × Fs) :=
  let open_opts := openOptsFor mode
  match osOpen open_opts path fs with
  | .error _ => .error .IoError
  | .ok (file, fs') =>
      let (file_id, s1) := takeFileId s
      .ok (file_id,
        { s1 with
          files := s1.files.insert file_id file,
          file_modes := s1.file_modes.insert file_id mode,
          file_types := s1.file_types.insert file_id type_ },
        fs')

/-- The outcome of `Popen::create` on success: a stream exists exactly for
each `Save` (= `Pipe`) redirection. -/
def spawnProc (config : RemotePOpenConfig) : Proc :=
  { stdin := if config.stdin = .Save then some ⟨[], 0⟩ else none
    stdout := if config.stdout = .Save then some ⟨[], 0⟩ else none
    stderr := if config.stderr = .Save then some ⟨[], 0⟩ else none }

/-- `run_command`.  `spawnOk` abstracts whether `Popen::create` succeeds.
The channel bookkeeping is translated verbatim from the source, including
the arm that inserts the stderr channel id into `proc_stdout_ids`
(state.rs lines 163-166). -/
def run_command (s : BhAgentState) (config : RemotePOpenConfig)
    (spawnOk : Bool) : Except AgentError (ProcessId × BhAgentState) :=
  if !spawnOk then .error .ProcessStartFailure
  else
    let proc := spawnProc config
    let (proc_id, s1) := takeProcId s
    let s2 :=
      if proc.stdin.isSome then
        let (file_id, s') := takeFileId s1
        { s' with proc_stdin_ids := s'.proc_stdin_ids.insert file_id proc_id }
      else s1
    let s3 :=
      if proc.stdout.isSome then
        let (file_id, s') := takeFileId s2
        { s' with proc_stdout_ids := s'.proc_stdout_ids.insert file_id proc_id }
      else s2
    let s4 :=
      if proc.stderr.isSome then
        let (file_id, s') := takeFileId s3
        { s' with proc_stdout_ids := s'.proc_stdout_ids.insert file_id proc_id }
      else s3
    let s5 := { s4 with processes := s4.processes.insert proc_id proc }
    .ok (proc_id, s5)

/-- `get_process_channel`: pick the channel's table and look it up.  The
lookup key used by the source is `proc_id`, although the tables are keyed
by `FileId`; the found value (a `ProcessId`) is returned as the `FileId`. -/
def get_process_channel (s : BhAgentState) (proc_id : ProcessId)
    (channel : ProcessChannel) : Except AgentError FileId :=
  let table :=
    match channel with
    | .Stdin => s.proc_stdin_ids
    | .Stdout => s.proc_stdout_ids
    | .Stderr => s.proc_stderr_ids
  match table.get? proc_id with
  | some i => .ok i
  | none => .error .InvalidProcessId

/-- `close_file`: remove the entry from the plain-file table only. -/
def close_file (s : BhAgentState) (fd : FileId) :
    Except AgentError BhAgentState :=
  match s.files.get? fd with
  | none => .error .InvalidFileDescriptor
  | some _ => .ok { s with files := s.files.remove fd }

/-- `is_file_closed` (returns `contains`, i.e. true while the file is
still open — kept as in the source). -/
def is_file_closed (s : BhAgentState) (fd : FileId) :
    Except AgentError Bool :=
  .ok (s.files.contains fd)

end BhAgentState

/-- The outcome of `do_mut_operation`: success with the operation result and
the new state, an error, or a panic from one of the `unwrap` calls. -/
inductive MutResult (R : Type) : Type
  | ok (r : R) (s : BhAgentState)
  | err (e : AgentError)
  | panicked
  deriving Repr

namespace BhAgentState

/-- `do_mut_operation`: resolve the descriptor against the plain-file table
and then the stdin/stdout/stderr channel tables, in that order, and apply
`op` to the resolved stream.  The `.unwrap()` calls of the source on the
process lookup and on the stream `Option` are modelled as `panicked`. -/
def do_mut_operation {R : Type} (s : BhAgentState) (fd : FileId)
    (op : ByteStream → R × ByteStream) : MutResult R :=
  match s.files.get? fd with
  | some file =>
      let (r, file') := op file
      .ok r { s with files := s.files.update fd file' }
  | none =>
    match s.proc_stdin_ids.get? fd with
    | some pid =>
        match s.processes.get? pid with
        | none => .panicked
        | some proc =>
            match proc.stdin with
            | none => .panicked
            | some file =>
                let (r, file') := op file
                .ok r { s with processes :=
                  s.processes.update pid { proc with stdin := some file' } }
    | none =>
      match s.proc_stdout_ids.get? fd with
      | some pid =>
          match s.processes.get? pid with
          | none => .panicked
          | some proc =>
              match proc.stdout with
              | none => .panicked
              | some file =>
                  let (r, file') := op file
                  .ok r { s with processes :=
                    s.processes.update pid { proc with stdout := some file' } }
      | none =>
        match s.proc_stderr_ids.get? fd with
        | some pid =>
            match s.processes.get? pid with
            | none => .panicked
            | some proc =>
                match proc.stderr with
                | none => .panicked
                | some file =>
                    let (r, file') := op file
                    .ok r { s with processes :=
                      s.processes.update pid { proc with stderr := some file' } }
        | none => .err .InvalidFileDescriptor

end BhAgentState

/-! ## Protocol layer (`src/bh_agent_server/src/server.rs`) -/

/-- The world visible to the server: its state plus the OS filesystem. -/
structure World where
  state : BhAgentState
  fs : Fs
  deriving DecidableEq, Repr

/-- One remote call, with its arguments.  `runCommand` carries `spawnOk`,
abstracting whether the OS `Popen::create` succeeds.  (`get_environments`
takes no `EnvironmentId` and touches no state; it is omitted.) -/
inductive Request
  | getTempdir (env : EnvironmentId)
  | runCommand (env : EnvironmentId) (config : RemotePOpenConfig)
      (spawnOk : Bool)
  | getProcessChannel (env : EnvironmentId) (proc_id : ProcessId)
      (channel : ProcessChannel)
  | fileOpen (env : EnvironmentId) (path : String) (mode : FileOpenMode)
      (type_ : FileOpenType)
  | fileClose (env : EnvironmentId) (fd : FileId)
  | fileIsClosed (env : EnvironmentId) (fd : FileId)
  | fileIsReadable (env : EnvironmentId) (fd : FileId)
  | fileRead (env : EnvironmentId) (fd : FileId) (num_bytes : Nat)
  | fileReadLines (env : EnvironmentId) (fd : FileId) (hint : Nat)
  | fileIsSeekable (env : EnvironmentId) (fd : FileId)
  | fileSeek (env : EnvironmentId) (fd : FileId) (offset : Int) (whence : Int)
  | fileTell (env : EnvironmentId) (fd : FileId)
  | fileIsWritable (env : EnvironmentId) (fd : FileId)
  | fileWrite (env : EnvironmentId) (fd : FileId) (data : List Nat)
  deriving DecidableEq, Repr

/-- The `EnvironmentId` argument of a request. -/
def Request.envId : Request → EnvironmentId
  | .getTempdir e => e
  | .runCommand e _ _ => e
  | .getProcessChannel e _ _ => e
  | .fileOpen e _ _ _ => e
  | .fileClose e _ => e
  | .fileIsClosed e _ => e
  | .fileIsReadable e _ => e
  | .fileRead e _ _ => e
  | .fileReadLines e _ _ => e
  | .fileIsSeekable e _ => e
  | .fileSeek e _ _ _ => e
  | .fileTell e _ => e
  | .fileIsWritable e _ => e
  | .fileWrite e _ _ => e

/-- A successful response value. -/
inductive RespVal
  | unitV
  | boolV (b : Bool)
  | idV (v : Nat)
  | bytesV (bs : List Nat)
  | linesV (ls : List (List Nat))
  | strV (s : String)
  deriving DecidableEq, Repr

/-- The outcome of one call: success, a wire error, or a server panic
(`todo!()` or a failing `unwrap`). -/
inductive Outcome
  | ok (v : RespVal)
  | err (e : AgentError)
  | panicked
  deriving DecidableEq, Repr

/-- Reinterpretation of an `i32` value as a `u64` (`offset as u64` in
`file_seek` for whence 0). -/
def i32AsU64 (o : Int) : Nat := (o % ((2 : Int) ^ 64)).toNat

/-- One protocol call (`impl BhAgentService for BhAgentServer`).  Every
handler validates `env_id == 0` first (the `check_env_id!` macro) and then
delegates to the state.  `file_is_seekable` and `file_tell` are `todo!()`
in the source: after the environment check they panic. -/
def serverStep (req : Request) (w : World) : Outcome × World :=
  match req with
  | .getTempdir env =>
      if env ≠ 0 then (.err .InvalidEnvironmentId, w)
      else (.ok (.strV "/tmp"), w)
  | .runCommand env config spawnOk =>
      if env ≠ 0 then (.err .InvalidEnvironmentId, w)
      else
        match w.state.run_command config spawnOk with
        | .ok (pid, s') => (.ok (.idV pid), { w with state := s' })
        | .error e => (.err e, w)
  | .getProcessChannel env pid ch =>
      if env ≠ 0 then (.err .InvalidEnvironmentId, w)
      else
        match w.state.get_process_channel pid ch with
        | .ok fid => (.ok (.idV fid), w)
        | .error e => (.err e, w)
  | .fileOpen env path mode type_ =>
      if env ≠ 0 then (.err .InvalidEnvironmentId, w)
      else
        match w.state.open_path w.fs path mode type_ with
        | .ok (fid, s', fs') => (.ok (.idV fid), ⟨s', fs'⟩)
        | .error e => (.err e, w)
  | .fileClose env fd =>
      if env ≠ 0 then (.err .InvalidEnvironmentId, w)
      else
        match w.state.close_file fd with
        | .ok s' => (.ok .unitV, { w with state := s' })
        | .error e => (.err e, w)
  | .fileIsClosed env fd =>
      if env ≠ 0 then (.err .InvalidEnvironmentId, w)
      else
        match w.state.is_file_closed fd with
        | .ok b => (.ok (.boolV b), w)
        | .error e => (.err e, w)
  | .fileIsReadable env fd =>
      if env ≠ 0 then (.err .InvalidEnvironmentId, w)
      else
        match w.state.file_has_any_mode fd [.Read, .Update] with
        | .ok b => (.ok (.boolV b), w)
        | .error e => (.err e, w)
  | .fileRead env fd num_bytes =>
      if env ≠ 0 then (.err .InvalidEnvironmentId, w)
      else
        match w.state.do_mut_operation fd (fun file =>
          match w.state.file_type fd with
          | .ok t =>
              let (v, f') := read_generic file num_bytes t
              ((Except.ok v : Except AgentError (List Nat)), f')
          | .error e => ((Except.error e : Except AgentError (List Nat)), file))
          with
        | .ok inner s' =>
            match inner with
            | .ok v => (.ok (.bytesV v), { w with state := s' })
            | .error _ => (.err .IoError, { w with state := s' })
        | .err e => (.err e, w)
        | .panicked => (.panicked, w)
  | .fileReadLines env fd _hint =>
      if env ≠ 0 then (.err .InvalidEnvironmentId, w)
      else
        match w.state.do_mut_operation fd (fun file =>
          let (ls, f') := read_lines file
          ((Except.ok ls : Except AgentError (List (List Nat))), f')) with
        | .ok inner s' =>
            match inner with
            | .ok ls => (.ok (.linesV ls), { w with state := s' })
            | .error e => (.err e, { w with state := s' })
        | .err e => (.err e, w)
        | .panicked => (.panicked, w)
  | .fileIsSeekable env _fd =>
      if env ≠ 0 then (.err .InvalidEnvironmentId, w)
      else (.panicked, w)
  | .fileSeek env fd offset whence =>
      if env ≠ 0 then (.err .InvalidEnvironmentId, w)
      else
        match (if whence = 0 then some (SeekFrom.Start (i32AsU64 offset))
               else if whence = 1 then some (SeekFrom.Current offset)
               else if whence = 2 then some (SeekFrom.FromEnd offset)
               else none) with
        | none => (.err .InvalidSeekWhence, w)
        | some from_ =>
            match w.state.do_mut_operation fd (fun file =>
              match file.seek from_ with
              | .ok (_, f') => ((), f')
              | .error _ => ((), file)) with
            | .ok _ s' => (.ok .unitV, { w with state := s' })
            | .err e => (.err e, w)
            | .panicked => (.panicked, w)
  | .fileTell env _fd =>
      if env ≠ 0 then (.err .InvalidEnvironmentId, w)
      else (.panicked, w)
  | .fileIsWritable env fd =>
      if env ≠ 0 then (.err .InvalidEnvironmentId, w)
      else
        match w.state.file_has_any_mode fd
            [.Write, .ExclusiveWrite, .Update, .Append] with
        | .ok b => (.ok (.boolV b), w)
        | .error e => (.err e, w)
  | .fileWrite env fd data =>
      if env ≠ 0 then (.err .InvalidEnvironmentId, w)
      else
        match w.state.do_mut_operation fd (fun file =>
          let (n, f') := file.write data
          (n, f')) with
        | .ok _ s' => (.ok .unitV, { w with state := s' })
        | .err e => (.err e, w)
        | .panicked => (.panicked, w)

/-! ## Allocation accounting

`allocCount` mirrors the control flow of the step: how many `take_file_id`
calls the request performs (`file_open` allocates one id after a successful
OS open; `run_command` allocates one per piped stream after a successful
spawn; nothing else allocates). -/

def allocCount (w : World) (req : Request) : Nat :=
  match req with
  | .fileOpen env path mode _ =>
      if env ≠ 0 then 0
      else
        match osOpen (openOptsFor mode) path w.fs with
        | .error _ => 0
        | .ok _ => 1
  | .runCommand env config spawnOk =>
      if env ≠ 0 then 0
      else if !spawnOk then 0
      else
        (if config.stdin = .Save then 1 else 0) +
          ((if config.stdout = .Save then 1 else 0) +
            (if config.stderr = .Save then 1 else 0))
  | _ => 0

/-- Execute a trace of requests. -/
def execWorld : World → List Request → World
  | w, [] => w
  | w, r :: rs => execWorld (serverStep r w).2 rs

/-- Total number of `FileId` allocations along a trace. -/
def totalAlloc : World → List Request → Nat
  | _, [] => 0
  | w, r :: rs => allocCount w r + totalAlloc (serverStep r w).2 rs

/-- The `FileId`s a single request draws from the shared counter (valid in
the non-wrapping regime). -/
def issuedWindow (w : World) (req : Request) : List FileId :=
  (List.range (allocCount w req)).map (fun i => w.state.next_file_id + i)

/-- All `FileId`s issued along a trace, in issue order. -/
def execIssued : World → List Request → List FileId
  | _, [] => []
  | w, r :: rs => issuedWindow w r ++ execIssued (serverStep r w).2 rs

/-- `fd` is dead: absent from the open-file table and from all three
channel-index tables, and below the shared counter (so it can never be
issued again while the counter does not wrap). -/
def fdDead (s : BhAgentState) (fd : FileId) : Prop :=
  s.files.get? fd = none ∧
  s.proc_stdin_ids.get? fd = none ∧
  s.proc_stdout_ids.get? fd = none ∧
  s.proc_stderr_ids.get? fd = none ∧
  fd < s.next_file_id

/-- A launch request asking to pipe only stderr. -/
def cfgStderrOnly : RemotePOpenConfig :=
  { argv := ["prog"], stdin := .None, stdout := .None, stderr := .Save,
    executable := none, env := none, cwd := none }

/-- A launch request asking to pipe only stdout. -/
def cfgStdoutOnly : RemotePOpenConfig :=
  { argv := ["prog"], stdin := .None, stdout := .Save, stderr := .None,
    executable := none, env := none, cwd := none }

/-- All `FileId`s currently recorded in the three channel-index tables. -/
def chanKeys (s : BhAgentState) : List FileId :=
  s.proc_stdin_ids.keys ++ s.proc_stdout_ids.keys ++ s.proc_stderr_ids.keys

/-- Number of piped streams requested by a config — the number of `FileId`s
a successful `run_command` draws. -/
def kOf (config : RemotePOpenConfig) : Nat :=
  (if config.stdin = .Save then 1 else 0) +
    ((if config.stdout = .Save then 1 else 0) +
      (if config.stderr = .Save then 1 else 0))

/-- The C8 example input, the bytes of `"line1\nline2\r\nline3\rline4\n"`. -/
def c8Input : List Nat :=
  [108, 105, 110, 101, 49, 10,
   108, 105, 110, 101, 50, 13, 10,
   108, 105, 110, 101, 51, 13,
   108, 105, 110, 101, 52, 10]

/-! ## Frame lemmas -/

namespace Map

variable {α β : Type} [DecidableEq α]

theorem get?_insert_self (m : Map α β) (k : α) (v : β) :
    get? (insert m k v) k = some v := by
  simp [insert, get?]

theorem get?_insert_ne (m : Map α β) (k k' : α) (v : β) (h : k ≠ k') :
    get? (insert m k v) k' = get? m k' := by
  simp only [insert, get?, if_neg h]
  induction m with
  | nil => simp [get?]
  | cons p rest ih =>
    by_cases hp : p.1 = k
    · simp only [List.filter]
      rw [show (decide ¬p.1 = k) = false by simp [hp]]
      simp only [get?]
      rw [if_neg (by rw [hp]; exact h)] at *
      exact ih
    · simp only [List.filter]
      rw [show (decide ¬p.1 = k) = true by simp [hp]]
      cases p with
      | mk a b =>
        simp only [get?] at *
        by_cases ha : a = k'
        · simp [ha]
        · simp only [if_neg ha]
          exact ih

theorem get?_update_of_none (m : Map α β) (k j : α) (v : β)
    (h : get? m j = none) : get? (update m k v) j = none := by
  induction m with
  | nil => rfl
  | cons p rest ih =>
    simp only [get?] at h
    by_cases hj : p.1 = j
    · rw [if_pos hj] at h; exact absurd h (by simp)
    · rw [if_neg hj] at h
      simp only [update, List.map_cons]
      by_cases hp : p.1 = k
      · rw [if_pos hp]
        simp only [get?]
        rw [if_neg (fun hkj => hj (hp.trans hkj))]
        exact ih h
      · rw [if_neg hp]
        simp only [get?]
        rw [if_neg hj]
        exact ih h

theorem mem_keys_filter_ne (m : Map α β) (k j : α) :
    j ∈ keys (m.filter (fun p => p.1 ≠ k)) ↔ j ∈ keys m ∧ j ≠ k := by
  induction m with
  | nil => simp [keys]
  | cons p rest ih =>
    by_cases hp : p.1 = k
    · rw [List.filter_cons_of_neg (by simp [hp])]
      simp only [keys, List.map_cons, List.mem_cons] at *
      constructor
      · intro hj; exact ⟨Or.inr (ih.mp hj).1, (ih.mp hj).2⟩
      · rintro ⟨hj | hj, hne⟩
        · exact absurd (hj.trans hp) hne
        · exact ih.mpr ⟨hj, hne⟩
    · rw [List.filter_cons_of_pos (by simp [hp])]
      simp only [keys, List.map_cons, List.mem_cons] at *
      constructor
      · rintro (hj | hj)
        · exact ⟨Or.inl hj, fun hk => hp (hj ▸ hk)⟩
        · exact ⟨Or.inr (ih.mp hj).1, (ih.mp hj).2⟩
      · rintro ⟨hj | hj, hne⟩
        · exact Or.inl hj
        · exact Or.inr (ih.mpr ⟨hj, hne⟩)

theorem mem_keys_insert (m : Map α β) (k j : α) (v : β) :
    j ∈ keys (insert m k v) ↔ j = k ∨ j ∈ keys m := by
  simp only [insert, keys, List.map_cons, List.mem_cons]
  rw [show List.map Prod.fst (m.filter (fun p => p.1 ≠ k)) =
      keys (m.filter (fun p => p.1 ≠ k)) from rfl]
  constructor
  · rintro (h | h)
    · exact Or.inl h
    · exact Or.inr ((mem_keys_filter_ne m k j).mp h).1
  · rintro (h | h)
    · exact Or.inl h
    · by_cases hk : j = k
      · exact Or.inl hk
      · exact Or.inr ((mem_keys_filter_ne m k j).mpr ⟨h, hk⟩)

theorem get?_none_of_not_mem_keys (m : Map α β) (j : α)
    (h : j ∉ keys m) : get? m j = none := by
  induction m with
  | nil => rfl
  | cons p rest ih =>
    simp only [keys, List.map_cons, List.mem_cons] at h
    push_neg at h
    simp only [get?]
    rw [if_neg (fun hp => h.1 hp.symm)]
    exact ih (by
      intro hm
      exact absurd hm (by simpa [keys] using h.2))

theorem not_mem_keys_of_get?_none (m : Map α β) (j : α)
    (h : get? m j = none) : j ∉ keys m := by
  induction m with
  | nil => simp [keys]
  | cons p rest ih =>
    simp only [get?] at h
    by_cases hp : p.1 = j
    · rw [if_pos hp] at h; exact absurd h (by simp)
    · rw [if_neg hp] at h
      simp only [keys, List.map_cons, List.mem_cons]
      push_neg
      exact ⟨fun hj => hp hj.symm, by simpa [keys] using ih h⟩

theorem get?_remove_self (m : Map α β) (k : α) :
    get? (remove m k) k = none := by
  induction m with
  | nil => rfl
  | cons p rest ih =>
    by_cases hp : p.1 = k
    · simp only [remove, List.filter]
      rw [show (decide ¬p.1 = k) = false by simp [hp]]
      exact ih
    · simp only [remove, List.filter]
      rw [show (decide ¬p.1 = k) = true by simp [hp]]
      cases p with
      | mk a b =>
        simp only [get?]
        rw [if_neg hp]
        exact ih

theorem get?_remove_ne (m : Map α β) (k k' : α) (h : k ≠ k') :
    get? (remove m k) k' = get? m k' := by
  induction m with
  | nil => rfl
  | cons p rest ih =>
    by_cases hp : p.1 = k
    · simp only [remove, List.filter]
      rw [show (decide ¬p.1 = k) = false by simp [hp]]
      cases p with
      | mk a b =>
        simp only [get?]
        rw [if_neg (by simp at hp; exact fun hh => h (hp.symm.trans hh))]
        exact ih
    · simp only [remove, List.filter]
      rw [show (decide ¬p.1 = k) = true by simp [hp]]
      cases p with
      | mk a b =>
        simp only [get?]
        by_cases ha : a = k'
        · simp [ha]
        · simp only [if_neg ha]
          exact ih

theorem get?_remove_of_none (m : Map α β) (k j : α) (h : get? m j = none) :
    get? (remove m k) j = none := by
  by_cases hk : k = j
  · subst hk; exact get?_remove_self m k
  · rw [get?_remove_ne m k j hk]; exact h

end Map

theorem length_dropWhile_le (p : Nat → Bool) (l : List Nat) :
    (l.dropWhile p).length ≤ l.length := by
  induction l with
  | nil => simp
  | cons c cs ih =>
    rw [List.dropWhile_cons]
    by_cases h : p c = true
    · rw [if_pos h]; simp only [List.length_cons]; omega
    · rw [if_neg h]

theorem sliceSplit_ne_nil (p : Nat → Bool) (l : List Nat) :
    sliceSplit p l ≠ [] := by
  cases l with
  | nil => simp [sliceSplit]
  | cons b bs =>
    simp only [sliceSplit]
    by_cases h : p b
    · simp [h]
    · simp only [if_neg h]
      cases sliceSplit p bs <;> simp

/-- The first segment of `sliceSplit` is the maximal leading run of
non-separator elements, and the rest is the split of what follows the first
separator (if any). -/
theorem sliceSplit_eq (p : Nat → Bool) (l : List Nat) :
    sliceSplit p l =
      l.takeWhile (fun c => !p c) ::
        (match l.dropWhile (fun c => !p c) with
         | [] => []
         | _ :: rest => sliceSplit p rest) := by
  induction l with
  | nil => simp [sliceSplit]
  | cons b bs ih =>
    rw [List.takeWhile_cons, List.dropWhile_cons]
    by_cases h : p b
    · have hb : ¬((fun c => !p c) b = true) := by simp [h]
      rw [if_neg hb, if_neg hb]
      simp only [sliceSplit, if_pos h]
    · have hb : ((fun c => !p c) b) = true := by simp [h]
      rw [if_pos hb, if_pos hb]
      simp only [sliceSplit, if_neg h]
      rw [ih]

/-- Refinement: the implementation's split-then-filter agrees with the
spec-side maximal-run decomposition on every input. -/
theorem split_lines_eq_linesSpec (buffer : List Nat) :
    split_lines buffer = linesSpec buffer := by
  generalize hn : buffer.length = n
  induction n using Nat.strong_induction_on generalizing buffer with
  | _ n ih =>
    cases buffer with
    | nil => simp [split_lines, sliceSplit, linesSpec]
    | cons b bs =>
      by_cases h : isLineSep b
      · have hbs : split_lines bs = linesSpec bs := by
          apply ih bs.length _ bs rfl
          simp only [← hn, List.length_cons]; omega
        simp only [linesSpec, if_pos h, ← hbs, split_lines, sliceSplit, if_pos h]
        simp
      · have hb : ((fun c => !isLineSep c) b) = true := by simp [h]
        simp only [split_lines]
        rw [sliceSplit_eq, List.takeWhile_cons, List.dropWhile_cons,
          if_pos hb, if_pos hb]
        simp only [linesSpec, if_neg h]
        cases hd : bs.dropWhile (fun c => !isLineSep c) with
        | nil => simp [linesSpec]
        | cons c rest =>
          have hc : isLineSep c := by
            have := List.head_dropWhile_not (p := fun c => !isLineSep c) (l := bs)
            rw [hd] at this
            simpa using this (by simp)
          have hlen : rest.length < n := by
            have h1 : (bs.dropWhile (fun c => !isLineSep c)).length ≤ bs.length :=
              length_dropWhile_le _ _
            rw [hd] at h1
            simp only [List.length_cons] at h1
            simp only [← hn, List.length_cons]
            omega
          have hrest : split_lines rest = linesSpec rest := ih rest.length hlen rest rfl
          have hspec : linesSpec (c :: rest) = linesSpec rest := by
            simp [linesSpec, hc]
          rw [hspec, ← hrest]
          simp [split_lines]


theorem do_mut_frame {R : Type} {s : BhAgentState} {fd : FileId}
    {op : ByteStream → R × ByteStream} {r : R} {s' : BhAgentState}
    (h : s.do_mut_operation fd op = .ok r s') :
    s'.proc_stdin_ids = s.proc_stdin_ids ∧
    s'.proc_stdout_ids = s.proc_stdout_ids ∧
    s'.proc_stderr_ids = s.proc_stderr_ids ∧
    s'.file_modes = s.file_modes ∧
    s'.file_types = s.file_types ∧
    s'.next_file_id = s.next_file_id ∧
    s'.next_process_id = s.next_process_id ∧
    (∀ j, s.files.get? j = none → s'.files.get? j = none) := by
  cases h1 : s.files.get? fd with
  | some file =>
      simp only [BhAgentState.do_mut_operation, h1, MutResult.ok.injEq] at h
      obtain ⟨-, rfl⟩ := h
      exact ⟨rfl, rfl, rfl, rfl, rfl, rfl, rfl,
        fun j hj => Map.get?_update_of_none _ _ _ _ hj⟩
  | none =>
      cases h2 : s.proc_stdin_ids.get? fd with
      | some pid =>
          cases h3 : s.processes.get? pid with
          | none => simp [BhAgentState.do_mut_operation, h1, h2, h3] at h
          | some proc =>
              cases h4 : proc.stdin with
              | none => simp [BhAgentState.do_mut_operation, h1, h2, h3, h4] at h
              | some file =>
                  simp only [BhAgentState.do_mut_operation, h1, h2, h3, h4,
                    MutResult.ok.injEq] at h
                  obtain ⟨-, rfl⟩ := h
                  exact ⟨rfl, rfl, rfl, rfl, rfl, rfl, rfl, fun j hj => hj⟩
      | none =>
          cases h2' : s.proc_stdout_ids.get? fd with
          | some pid =>
              cases h3 : s.processes.get? pid with
              | none => simp [BhAgentState.do_mut_operation, h1, h2, h2', h3] at h
              | some proc =>
                  cases h4 : proc.stdout with
                  | none =>
                      simp [BhAgentState.do_mut_operation, h1, h2, h2', h3, h4] at h
                  | some file =>
                      simp only [BhAgentState.do_mut_operation, h1, h2, h2', h3, h4,
                        MutResult.ok.injEq] at h
                      obtain ⟨-, rfl⟩ := h
                      exact ⟨rfl, rfl, rfl, rfl, rfl, rfl, rfl, fun j hj => hj⟩
          | none =>
              cases h2'' : s.proc_stderr_ids.get? fd with
              | some pid =>
                  cases h3 : s.processes.get? pid with
                  | none =>
                      simp [BhAgentState.do_mut_operation, h1, h2, h2', h2'', h3] at h
                  | some proc =>
                      cases h4 : proc.stderr with
                      | none =>
                          simp [BhAgentState.do_mut_operation,
                            h1, h2, h2', h2'', h3, h4] at h
                      | some file =>
                          simp only [BhAgentState.do_mut_operation,
                            h1, h2, h2', h2'', h3, h4, MutResult.ok.injEq] at h
                          obtain ⟨-, rfl⟩ := h
                          exact ⟨rfl, rfl, rfl, rfl, rfl, rfl, rfl,
                            fun j hj => hj⟩
              | none =>
                  simp [BhAgentState.do_mut_operation, h1, h2, h2', h2''] at h

/-- On a dead descriptor `do_mut_operation` always reports
`InvalidFileDescriptor`. -/
theorem do_mut_dead {R : Type} (s : BhAgentState) (fd : FileId)
    (op : ByteStream → R × ByteStream) (h : fdDead s fd) :
    s.do_mut_operation fd op = .err .InvalidFileDescriptor := by
  obtain ⟨h1, h2, h3, h4, -⟩ := h
  simp only [BhAgentState.do_mut_operation, h1, h2, h3, h4]

theorem counter_after_do_mut {R : Type} {s : BhAgentState} {fd : FileId}
    {op : ByteStream → R × ByteStream} {r : R} {s' : BhAgentState}
    (h : s.do_mut_operation fd op = .ok r s') :
    s'.next_file_id = s.next_file_id :=
  (do_mut_frame h).2.2.2.2.2.1

theorem not_zero_ne_zero : ¬((0 : Nat) ≠ 0) := fun h => h rfl

/-- What a successful `run_command` does to the state (in the non-wrapping
counter regime): the process id is the process counter, the file counter
advances by the number of piped streams, the file tables are untouched,
channel tables are only changed at the freshly drawn ids, and each freshly
drawn id is recorded in some channel table. -/
theorem run_command_ok_state {s : BhAgentState} {config : RemotePOpenConfig}
    {pid : ProcessId} {s' : BhAgentState}
    (hnw : s.next_file_id + kOf config < U64MOD)
    (h : s.run_command config true = .ok (pid, s')) :
    pid = s.next_process_id ∧
    s'.next_file_id = s.next_file_id + kOf config ∧
    s'.files = s.files ∧
    s'.file_modes = s.file_modes ∧
    s'.file_types = s.file_types ∧
    (∀ j, (j < s.next_file_id ∨ s.next_file_id + kOf config ≤ j) →
      s'.proc_stdin_ids.get? j = s.proc_stdin_ids.get? j ∧
      s'.proc_stdout_ids.get? j = s.proc_stdout_ids.get? j ∧
      s'.proc_stderr_ids.get? j = s.proc_stderr_ids.get? j) ∧
    (∀ i, i < kOf config → (s.next_file_id + i) ∈ chanKeys s') := by
  obtain ⟨argv, cin, cout, cerr, ex, en, cw⟩ := config
  cases cin <;> cases cout <;> cases cerr
  · -- None / None / None
    have hk : kOf ⟨argv, .None, .None, .None, ex, en, cw⟩ = 0 := rfl
    rw [hk] at hnw ⊢
    simp only [BhAgentState.run_command, BhAgentState.spawnProc,
      BhAgentState.takeProcId, BhAgentState.takeFileId] at h
    simp at h
    obtain ⟨rfl, rfl⟩ := h
    refine ⟨rfl, rfl, rfl, rfl, rfl, fun j hj => ⟨rfl, rfl, rfl⟩,
      fun i hi => absurd hi (by omega)⟩
  · -- None / None / Save
    have hk : kOf ⟨argv, .None, .None, .Save, ex, en, cw⟩ = 1 := rfl
    rw [hk] at hnw ⊢
    simp only [BhAgentState.run_command, BhAgentState.spawnProc,
      BhAgentState.takeProcId, BhAgentState.takeFileId] at h
    simp at h
    obtain ⟨rfl, rfl⟩ := h
    have e1 : (s.next_file_id + 1) % U64MOD = s.next_file_id + 1 :=
      Nat.mod_eq_of_lt (by omega)
    refine ⟨rfl, e1, rfl, rfl, rfl, ?_, ?_⟩
    · intro j hj
      exact ⟨rfl, Map.get?_insert_ne _ _ _ _ (by omega), rfl⟩
    · intro i hi
      have : i = 0 := by omega
      subst this
      simp [chanKeys, Map.mem_keys_insert]
  · -- None / Save / None
    have hk : kOf ⟨argv, .None, .Save, .None, ex, en, cw⟩ = 1 := rfl
    rw [hk] at hnw ⊢
    simp only [BhAgentState.run_command, BhAgentState.spawnProc,
      BhAgentState.takeProcId, BhAgentState.takeFileId] at h
    simp at h
    obtain ⟨rfl, rfl⟩ := h
    have e1 : (s.next_file_id + 1) % U64MOD = s.next_file_id + 1 :=
      Nat.mod_eq_of_lt (by omega)
    refine ⟨rfl, e1, rfl, rfl, rfl, ?_, ?_⟩
    · intro j hj
      exact ⟨rfl, Map.get?_insert_ne _ _ _ _ (by omega), rfl⟩
    · intro i hi
      have : i = 0 := by omega
      subst this
      simp [chanKeys, Map.mem_keys_insert]
  · -- None / Save / Save
    have hk : kOf ⟨argv, .None, .Save, .Save, ex, en, cw⟩ = 2 := rfl
    rw [hk] at hnw ⊢
    simp only [BhAgentState.run_command, BhAgentState.spawnProc,
      BhAgentState.takeProcId, BhAgentState.takeFileId] at h
    simp at h
    obtain ⟨rfl, rfl⟩ := h
    have e1 : (s.next_file_id + 1) % U64MOD = s.next_file_id + 1 :=
      Nat.mod_eq_of_lt (by omega)
    have e2 : (s.next_file_id + 1 + 1) % U64MOD = s.next_file_id + 2 :=
      Nat.mod_eq_of_lt (by omega)
    refine ⟨rfl, ?_, rfl, rfl, rfl, ?_, ?_⟩
    · exact e2
    · intro j hj
      refine ⟨rfl, ?_, rfl⟩
      rw [e1]
      exact (Map.get?_insert_ne _ _ _ _ (by omega)).trans
        (Map.get?_insert_ne _ _ _ _ (by omega))
    · intro i hi
      have : i = 0 ∨ i = 1 := by omega
      rcases this with rfl | rfl <;>
        simp [chanKeys, Map.mem_keys_insert, e1]
  · -- Save / None / None
    have hk : kOf ⟨argv, .Save, .None, .None, ex, en, cw⟩ = 1 := rfl
    rw [hk] at hnw ⊢
    simp only [BhAgentState.run_command, BhAgentState.spawnProc,
      BhAgentState.takeProcId, BhAgentState.takeFileId] at h
    simp at h
    obtain ⟨rfl, rfl⟩ := h
    have e1 : (s.next_file_id + 1) % U64MOD = s.next_file_id + 1 :=
      Nat.mod_eq_of_lt (by omega)
    refine ⟨rfl, e1, rfl, rfl, rfl, ?_, ?_⟩
    · intro j hj
      exact ⟨Map.get?_insert_ne _ _ _ _ (by omega), rfl, rfl⟩
    · intro i hi
      have : i = 0 := by omega
      subst this
      simp [chanKeys, Map.mem_keys_insert]
  · -- Save / None / Save
    have hk : kOf ⟨argv, .Save, .None, .Save, ex, en, cw⟩ = 2 := rfl
    rw [hk] at hnw ⊢
    simp only [BhAgentState.run_command, BhAgentState.spawnProc,
      BhAgentState.takeProcId, BhAgentState.takeFileId] at h
    simp at h
    obtain ⟨rfl, rfl⟩ := h
    have e1 : (s.next_file_id + 1) % U64MOD = s.next_file_id + 1 :=
      Nat.mod_eq_of_lt (by omega)
    have e2 : (s.next_file_id + 1 + 1) % U64MOD = s.next_file_id + 2 :=
      Nat.mod_eq_of_lt (by omega)
    refine ⟨rfl, ?_, rfl, rfl, rfl, ?_, ?_⟩
    · exact e2
    · intro j hj
      refine ⟨Map.get?_insert_ne _ _ _ _ (by omega), ?_, rfl⟩
      rw [e1]
      exact Map.get?_insert_ne _ _ _ _ (by omega)
    · intro i hi
      have : i = 0 ∨ i = 1 := by omega
      rcases this with rfl | rfl <;>
        simp [chanKeys, Map.mem_keys_insert, e1]
  · -- Save / Save / None
    have hk : kOf ⟨argv, .Save, .Save, .None, ex, en, cw⟩ = 2 := rfl
    rw [hk] at hnw ⊢
    simp only [BhAgentState.run_command, BhAgentState.spawnProc,
      BhAgentState.takeProcId, BhAgentState.takeFileId] at h
    simp at h
    obtain ⟨rfl, rfl⟩ := h
    have e1 : (s.next_file_id + 1) % U64MOD = s.next_file_id + 1 :=
      Nat.mod_eq_of_lt (by omega)
    have e2 : (s.next_file_id + 1 + 1) % U64MOD = s.next_file_id + 2 :=
      Nat.mod_eq_of_lt (by omega)
    refine ⟨rfl, ?_, rfl, rfl, rfl, ?_, ?_⟩
    · exact e2
    · intro j hj
      refine ⟨Map.get?_insert_ne _ _ _ _ (by omega), ?_, rfl⟩
      rw [e1]
      exact Map.get?_insert_ne _ _ _ _ (by omega)
    · intro i hi
      have : i = 0 ∨ i = 1 := by omega
      rcases this with rfl | rfl <;>
        simp [chanKeys, Map.mem_keys_insert, e1]
  · -- Save / Save / Save
    have hk : kOf ⟨argv, .Save, .Save, .Save, ex, en, cw⟩ = 3 := rfl
    rw [hk] at hnw ⊢
    simp only [BhAgentState.run_command, BhAgentState.spawnProc,
      BhAgentState.takeProcId, BhAgentState.takeFileId] at h
    simp at h
    obtain ⟨rfl, rfl⟩ := h
    have e1 : (s.next_file_id + 1) % U64MOD = s.next_file_id + 1 :=
      Nat.mod_eq_of_lt (by omega)
    have e2 : (s.next_file_id + 1 + 1) % U64MOD = s.next_file_id + 2 :=
      Nat.mod_eq_of_lt (by omega)
    have e3 : (s.next_file_id + 1 + 1 + 1) % U64MOD = s.next_file_id + 3 :=
      Nat.mod_eq_of_lt (by omega)
    refine ⟨rfl, ?_, rfl, rfl, rfl, ?_, ?_⟩
    · exact e3
    · intro j hj
      refine ⟨Map.get?_insert_ne _ _ _ _ (by omega), ?_, rfl⟩
      rw [e1, e2]
      exact (Map.get?_insert_ne _ _ _ _ (by omega)).trans
        (Map.get?_insert_ne _ _ _ _ (by omega))
    · intro i hi
      have : i = 0 ∨ i = 1 ∨ i = 2 := by omega
      rcases this with rfl | rfl | rfl <;>
        simp [chanKeys, Map.mem_keys_insert, e1, e2]

/-- What a successful `open_path` does to the state. -/
theorem open_path_ok_state {s : BhAgentState} {fs : Fs} {path : String}
    {mode : FileOpenMode} {ty : FileOpenType} {fid : FileId}
    {s' : BhAgentState} {fs' : Fs}
    (h : s.open_path fs path mode ty = .ok (fid, s', fs')) :
    fid = s.next_file_id ∧
    ∃ file, s' =
      { s with
        files := s.files.insert s.next_file_id file,
        file_modes := s.file_modes.insert s.next_file_id mode,
        file_types := s.file_types.insert s.next_file_id ty,
        next_file_id := (s.next_file_id + 1) % U64MOD } := by
  simp only [BhAgentState.open_path] at h
  cases hOs : osOpen (openOptsFor mode) path fs with
  | error e => rw [hOs] at h; exact absurd h (by simp)
  | ok pr =>
      obtain ⟨file, fsx⟩ := pr
      rw [hOs] at h
      simp only [BhAgentState.takeFileId, Except.ok.injEq, Prod.mk.injEq] at h
      obtain ⟨rfl, rfl, rfl⟩ := h
      exact ⟨rfl, file, rfl⟩

/-- How one step moves the shared file-id counter: by exactly
`allocCount`, modulo the `u64` wrap. -/
theorem serverStep_counter (req : Request) (w : World)
    (hc : w.state.next_file_id < U64MOD) :
    (serverStep req w).2.state.next_file_id =
      (w.state.next_file_id + allocCount w req) % U64MOD := by
  cases req with
  | getTempdir env =>
      by_cases he : env = 0 <;>
        simp [serverStep, allocCount, he, Nat.mod_eq_of_lt hc]
  | runCommand env config spawnOk =>
      by_cases he : env = 0
      · cases spawnOk with
        | false =>
            simp [serverStep, allocCount, he, BhAgentState.run_command,
              Nat.mod_eq_of_lt hc]
        | true =>
            obtain ⟨argv, cin, cout, cerr, ex, en, cw⟩ := config
            cases cin <;> cases cout <;> cases cerr <;>
              simp [serverStep, allocCount, he, BhAgentState.run_command,
                BhAgentState.spawnProc, BhAgentState.takeFileId,
                BhAgentState.takeProcId, Nat.mod_add_mod, Nat.mod_eq_of_lt hc]
      · simp [serverStep, allocCount, he, Nat.mod_eq_of_lt hc]
  | getProcessChannel env pid ch =>
      by_cases he : env = 0
      · subst he
        simp only [serverStep, allocCount]
        rw [if_neg not_zero_ne_zero]
        split <;> simp [Nat.mod_eq_of_lt hc]
      · simp [serverStep, allocCount, he, Nat.mod_eq_of_lt hc]
  | fileOpen env path mode ty =>
      by_cases he : env = 0
      · cases hOs : osOpen (openOptsFor mode) path w.fs with
        | error e =>
            simp [serverStep, allocCount, he, BhAgentState.open_path, hOs,
              Nat.mod_eq_of_lt hc]
        | ok pr =>
            obtain ⟨file, fs'⟩ := pr
            simp [serverStep, allocCount, he, BhAgentState.open_path,
              BhAgentState.takeFileId, hOs]
      · simp [serverStep, allocCount, he, Nat.mod_eq_of_lt hc]
  | fileClose env fd =>
      by_cases he : env = 0
      · subst he
        simp only [serverStep, allocCount]
        rw [if_neg not_zero_ne_zero]
        cases hcl : w.state.close_file fd with
        | ok s' =>
            simp only [BhAgentState.close_file] at hcl
            cases hg : w.state.files.get? fd with
            | none => rw [hg] at hcl; exact absurd hcl (by simp)
            | some f =>
                rw [hg] at hcl
                simp only [Except.ok.injEq] at hcl
                subst hcl
                simp [Nat.mod_eq_of_lt hc]
        | error e => simp [Nat.mod_eq_of_lt hc]
      · simp [serverStep, allocCount, he, Nat.mod_eq_of_lt hc]
  | fileIsClosed env fd =>
      by_cases he : env = 0 <;>
        simp [serverStep, allocCount, he, BhAgentState.is_file_closed,
          Nat.mod_eq_of_lt hc]
  | fileIsReadable env fd =>
      by_cases he : env = 0
      · subst he
        simp only [serverStep, allocCount]
        rw [if_neg not_zero_ne_zero]
        split <;> simp [Nat.mod_eq_of_lt hc]
      · simp [serverStep, allocCount, he, Nat.mod_eq_of_lt hc]
  | fileRead env fd n =>
      by_cases he : env = 0
      · subst he
        simp only [serverStep, allocCount]
        rw [if_neg not_zero_ne_zero]
        split
        · next inner s' hdm =>
            cases inner <;> simp [counter_after_do_mut hdm, Nat.mod_eq_of_lt hc]
        · next e heq => simp [Nat.mod_eq_of_lt hc]
        · next heq => simp [Nat.mod_eq_of_lt hc]
      · simp [serverStep, allocCount, he, Nat.mod_eq_of_lt hc]
  | fileReadLines env fd hint =>
      by_cases he : env = 0
      · subst he
        simp only [serverStep, allocCount]
        rw [if_neg not_zero_ne_zero]
        split
        · next inner s' hdm =>
            cases inner <;> simp [counter_after_do_mut hdm, Nat.mod_eq_of_lt hc]
        · next e heq => simp [Nat.mod_eq_of_lt hc]
        · next heq => simp [Nat.mod_eq_of_lt hc]
      · simp [serverStep, allocCount, he, Nat.mod_eq_of_lt hc]
  | fileIsSeekable env fd =>
      by_cases he : env = 0 <;>
        simp [serverStep, allocCount, he, Nat.mod_eq_of_lt hc]
  | fileSeek env fd offset whence =>
      by_cases he : env = 0
      · subst he
        simp only [serverStep, allocCount]
        rw [if_neg not_zero_ne_zero]
        split
        · simp [Nat.mod_eq_of_lt hc]
        · split
          · next r s' hdm =>
              simp [counter_after_do_mut hdm, Nat.mod_eq_of_lt hc]
          · next e heq => simp [Nat.mod_eq_of_lt hc]
          · next heq => simp [Nat.mod_eq_of_lt hc]
      · simp [serverStep, allocCount, he, Nat.mod_eq_of_lt hc]
  | fileTell env fd =>
      by_cases he : env = 0 <;>
        simp [serverStep, allocCount, he, Nat.mod_eq_of_lt hc]
  | fileIsWritable env fd =>
      by_cases he : env = 0
      · subst he
        simp only [serverStep, allocCount]
        rw [if_neg not_zero_ne_zero]
        split <;> simp [Nat.mod_eq_of_lt hc]
      · simp [serverStep, allocCount, he, Nat.mod_eq_of_lt hc]
  | fileWrite env fd data =>
      by_cases he : env = 0
      · subst he
        simp only [serverStep, allocCount]
        rw [if_neg not_zero_ne_zero]
        split
        · next r s' hdm =>
            simp [counter_after_do_mut hdm, Nat.mod_eq_of_lt hc]
        · next e heq => simp [Nat.mod_eq_of_lt hc]
        · next heq => simp [Nat.mod_eq_of_lt hc]
      · simp [serverStep, allocCount, he, Nat.mod_eq_of_lt hc]

/-- One step never resurrects a dead descriptor (in the non-wrapping
counter regime): all freshly issued ids are strictly above it. -/
theorem serverStep_fdDead (req : Request) (w : World) (fd : FileId)
    (hdead : fdDead w.state fd)
    (hnw : w.state.next_file_id + allocCount w req < U64MOD) :
    fdDead (serverStep req w).2.state fd := by
  obtain ⟨hf, hsi, hso, hse, hlt⟩ := hdead
  cases req with
  | getTempdir env =>
      by_cases he : env = 0 <;>
        simp [serverStep, he, fdDead, hf, hsi, hso, hse, hlt]
  | runCommand env config spawnOk =>
      by_cases he : env = 0
      · subst he
        cases spawnOk with
        | false =>
            simp [serverStep, BhAgentState.run_command, fdDead,
              hf, hsi, hso, hse, hlt]
        | true =>
            simp only [serverStep]
            rw [if_neg not_zero_ne_zero]
            split
            · next pid s' heq =>
                have hk : allocCount w (.runCommand 0 config true) =
                    kOf config := rfl
                rw [hk] at hnw
                obtain ⟨-, hcnt, hfiles, -, -, hpres, -⟩ :=
                  run_command_ok_state hnw heq
                obtain ⟨p1, p2, p3⟩ := hpres fd (Or.inl hlt)
                refine ⟨?_, p1.trans hsi, p2.trans hso, p3.trans hse, ?_⟩
                · show Map.get? s'.files fd = none
                  rw [hfiles]; exact hf
                · show fd < s'.next_file_id
                  rw [hcnt]
                  exact Nat.lt_of_lt_of_le hlt (Nat.le_add_right _ _)
            · next e heq =>
                exact ⟨hf, hsi, hso, hse, hlt⟩
      · simp [serverStep, he, fdDead, hf, hsi, hso, hse, hlt]
  | getProcessChannel env pid ch =>
      by_cases he : env = 0
      · subst he
        simp only [serverStep]
        rw [if_neg not_zero_ne_zero]
        split <;> exact ⟨hf, hsi, hso, hse, hlt⟩
      · simp [serverStep, he, fdDead, hf, hsi, hso, hse, hlt]
  | fileOpen env path mode ty =>
      by_cases he : env = 0
      · subst he
        simp only [serverStep]
        rw [if_neg not_zero_ne_zero]
        split
        · next fid s' fs' heq =>
            obtain ⟨rfl, file, rfl⟩ := open_path_ok_state heq
            have halloc : allocCount w (.fileOpen 0 path mode ty) = 1 := by
              simp only [BhAgentState.open_path] at heq
              cases hOs : osOpen (openOptsFor mode) path w.fs with
              | error e => rw [hOs] at heq; exact absurd heq (by simp)
              | ok pr => simp [allocCount, hOs]
            rw [halloc] at hnw
            refine ⟨?_, hsi, hso, hse, ?_⟩
            · show Map.get?
                (w.state.files.insert w.state.next_file_id file) fd = none
              exact (Map.get?_insert_ne _ _ _ _ (Nat.ne_of_gt hlt)).trans hf
            · have hm : (w.state.next_file_id + 1) % U64MOD =
                  w.state.next_file_id + 1 := Nat.mod_eq_of_lt hnw
              show fd < (w.state.next_file_id + 1) % U64MOD
              rw [hm]
              exact Nat.lt_succ_of_lt hlt
        · next e heq =>
            exact ⟨hf, hsi, hso, hse, hlt⟩
      · simp [serverStep, he, fdDead, hf, hsi, hso, hse, hlt]
  | fileClose env fd' =>
      by_cases he : env = 0
      · subst he
        simp only [serverStep]
        rw [if_neg not_zero_ne_zero]
        cases hcl : w.state.close_file fd' with
        | ok s' =>
            simp only [BhAgentState.close_file] at hcl
            cases hg : w.state.files.get? fd' with
            | none => rw [hg] at hcl; exact absurd hcl (by simp)
            | some f =>
                rw [hg] at hcl
                simp only [Except.ok.injEq] at hcl
                subst hcl
                exact ⟨Map.get?_remove_of_none _ _ _ hf, hsi, hso, hse, hlt⟩
        | error e => exact ⟨hf, hsi, hso, hse, hlt⟩
      · simp [serverStep, he, fdDead, hf, hsi, hso, hse, hlt]
  | fileIsClosed env fd' =>
      by_cases he : env = 0 <;>
        simp [serverStep, he, BhAgentState.is_file_closed, fdDead,
          hf, hsi, hso, hse, hlt]
  | fileIsReadable env fd' =>
      by_cases he : env = 0
      · subst he
        simp only [serverStep]
        rw [if_neg not_zero_ne_zero]
        split <;> exact ⟨hf, hsi, hso, hse, hlt⟩
      · simp [serverStep, he, fdDead, hf, hsi, hso, hse, hlt]
  | fileRead env fd' n =>
      by_cases he : env = 0
      · subst he
        simp only [serverStep]
        rw [if_neg not_zero_ne_zero]
        split
        · next inner s' hdm =>
            obtain ⟨f1, f2, f3, -, -, f6, -, f8⟩ := do_mut_frame hdm
            cases inner <;>
              exact ⟨f8 fd hf,
                show Map.get? s'.proc_stdin_ids fd = none by rw [f1]; exact hsi,
                show Map.get? s'.proc_stdout_ids fd = none by rw [f2]; exact hso,
                show Map.get? s'.proc_stderr_ids fd = none by rw [f3]; exact hse,
                show fd < s'.next_file_id by rw [f6]; exact hlt⟩
        · next e heq => exact ⟨hf, hsi, hso, hse, hlt⟩
        · next heq => exact ⟨hf, hsi, hso, hse, hlt⟩
      · simp [serverStep, he, fdDead, hf, hsi, hso, hse, hlt]
  | fileReadLines env fd' hint =>
      by_cases he : env = 0
      · subst he
        simp only [serverStep]
        rw [if_neg not_zero_ne_zero]
        split
        · next inner s' hdm =>
            obtain ⟨f1, f2, f3, -, -, f6, -, f8⟩ := do_mut_frame hdm
            cases inner <;>
              exact ⟨f8 fd hf,
                show Map.get? s'.proc_stdin_ids fd = none by rw [f1]; exact hsi,
                show Map.get? s'.proc_stdout_ids fd = none by rw [f2]; exact hso,
                show Map.get? s'.proc_stderr_ids fd = none by rw [f3]; exact hse,
                show fd < s'.next_file_id by rw [f6]; exact hlt⟩
        · next e heq => exact ⟨hf, hsi, hso, hse, hlt⟩
        · next heq => exact ⟨hf, hsi, hso, hse, hlt⟩
      · simp [serverStep, he, fdDead, hf, hsi, hso, hse, hlt]
  | fileIsSeekable env fd' =>
      by_cases he : env = 0 <;>
        simp [serverStep, he, fdDead, hf, hsi, hso, hse, hlt]
  | fileSeek env fd' offset whence =>
      by_cases he : env = 0
      · subst he
        simp only [serverStep]
        rw [if_neg not_zero_ne_zero]
        split
        · exact ⟨hf, hsi, hso, hse, hlt⟩
        · split
          · next r s' hdm =>
              obtain ⟨f1, f2, f3, -, -, f6, -, f8⟩ := do_mut_frame hdm
              exact ⟨f8 fd hf,
                show Map.get? s'.proc_stdin_ids fd = none by rw [f1]; exact hsi,
                show Map.get? s'.proc_stdout_ids fd = none by rw [f2]; exact hso,
                show Map.get? s'.proc_stderr_ids fd = none by rw [f3]; exact hse,
                show fd < s'.next_file_id by rw [f6]; exact hlt⟩
          · next e heq => exact ⟨hf, hsi, hso, hse, hlt⟩
          · next heq => exact ⟨hf, hsi, hso, hse, hlt⟩
      · simp [serverStep, he, fdDead, hf, hsi, hso, hse, hlt]
  | fileTell env fd' =>
      by_cases he : env = 0 <;>
        simp [serverStep, he, fdDead, hf, hsi, hso, hse, hlt]
  | fileIsWritable env fd' =>
      by_cases he : env = 0
      · subst he
        simp only [serverStep]
        rw [if_neg not_zero_ne_zero]
        split <;> exact ⟨hf, hsi, hso, hse, hlt⟩
      · simp [serverStep, he, fdDead, hf, hsi, hso, hse, hlt]
  | fileWrite env fd' data =>
      by_cases he : env = 0
      · subst he
        simp only [serverStep]
        rw [if_neg not_zero_ne_zero]
        split
        · next r s' hdm =>
            obtain ⟨f1, f2, f3, -, -, f6, -, f8⟩ := do_mut_frame hdm
            exact ⟨f8 fd hf,
              show Map.get? s'.proc_stdin_ids fd = none by rw [f1]; exact hsi,
              show Map.get? s'.proc_stdout_ids fd = none by rw [f2]; exact hso,
              show Map.get? s'.proc_stderr_ids fd = none by rw [f3]; exact hse,
              show fd < s'.next_file_id by rw [f6]; exact hlt⟩
        · next e heq => exact ⟨hf, hsi, hso, hse, hlt⟩
        · next heq => exact ⟨hf, hsi, hso, hse, hlt⟩
      · simp [serverStep, he, fdDead, hf, hsi, hso, hse, hlt]

/-- A dead descriptor stays dead along any trace that does not wrap the
shared counter. -/
theorem execWorld_fdDead (t : List Request) (w : World) (fd : FileId)
    (hdead : fdDead w.state fd)
    (hnw : w.state.next_file_id + totalAlloc w t < U64MOD) :
    fdDead (execWorld w t).state fd := by
  induction t generalizing w with
  | nil => exact hdead
  | cons r rs ih =>
      simp only [totalAlloc] at hnw
      have hnw1 : w.state.next_file_id + allocCount w r < U64MOD := by omega
      have hc : w.state.next_file_id < U64MOD := by omega
      have hd1 := serverStep_fdDead r w fd hdead hnw1
      have hcnt := serverStep_counter r w hc
      rw [Nat.mod_eq_of_lt hnw1] at hcnt
      show fdDead (execWorld (serverStep r w).2 rs).state fd
      apply ih _ hd1
      rw [hcnt]
      omega

/-- The ids issued along a trace from a non-wrapping start are exactly the
consecutive counter values. -/
theorem execIssued_eq (t : List Request) (w : World)
    (hnw : w.state.next_file_id + totalAlloc w t < U64MOD) :
    execIssued w t =
      (List.range (totalAlloc w t)).map (fun i => w.state.next_file_id + i) := by
  induction t generalizing w with
  | nil => simp [execIssued, totalAlloc]
  | cons r rs ih =>
      simp only [totalAlloc] at hnw ⊢
      have hnw1 : w.state.next_file_id + allocCount w r < U64MOD := by omega
      have hc : w.state.next_file_id < U64MOD := by omega
      have hcnt := serverStep_counter r w hc
      rw [Nat.mod_eq_of_lt hnw1] at hcnt
      have hnw' : (serverStep r w).2.state.next_file_id +
          totalAlloc (serverStep r w).2 rs < U64MOD := by
        rw [hcnt]; omega
      show issuedWindow w r ++ execIssued (serverStep r w).2 rs = _
      rw [ih _ hnw', hcnt, List.range_add, List.map_append, List.map_map]
      simp only [issuedWindow]
      congr 1
      apply List.map_congr_left
      intro i hi
      simp [Nat.add_assoc]

/-- Every I/O request on a dead descriptor, and a close of it, fails with
`InvalidFileDescriptor` and leaves the world unchanged. -/
theorem ops_fail_on_dead (w : World) (fd : FileId) (h : fdDead w.state fd) :
    (∀ n, serverStep (.fileRead 0 fd n) w =
      (.err .InvalidFileDescriptor, w)) ∧
    (∀ hint, serverStep (.fileReadLines 0 fd hint) w =
      (.err .InvalidFileDescriptor, w)) ∧
    (∀ data, serverStep (.fileWrite 0 fd data) w =
      (.err .InvalidFileDescriptor, w)) ∧
    (∀ off : Int, ∀ wh : Int, wh = 0 ∨ wh = 1 ∨ wh = 2 →
      serverStep (.fileSeek 0 fd off wh) w =
        (.err .InvalidFileDescriptor, w)) ∧
    serverStep (.fileClose 0 fd) w = (.err .InvalidFileDescriptor, w) := by
  obtain ⟨hf, -, -, -, -⟩ := id h
  refine ⟨?_, ?_, ?_, ?_, ?_⟩
  · intro n
    simp only [serverStep]
    rw [if_neg not_zero_ne_zero, do_mut_dead _ _ _ h]
  · intro hint
    simp only [serverStep]
    rw [if_neg not_zero_ne_zero, do_mut_dead _ _ _ h]
  · intro data
    simp only [serverStep]
    rw [if_neg not_zero_ne_zero, do_mut_dead _ _ _ h]
  · intro off wh hwh
    simp only [serverStep]
    rw [if_neg not_zero_ne_zero]
    rcases hwh with rfl | rfl | rfl <;>
      simp [do_mut_dead _ _ _ h]
  · simp only [serverStep]
    rw [if_neg not_zero_ne_zero]
    simp only [BhAgentState.close_file, hf]

/-- C4: a `FileId` returned by `file_open` and then successfully closed is
invalid forever: after any further trace of requests (that does not wrap the
64-bit id counter), `file_read`, `file_read_lines`, `file_write`,
`file_seek` (with any valid whence) and a second `file_close` on it all
fail with `InvalidFileDescriptor` and leave the state unchanged. -/
theorem c4_closed_descriptor_stays_invalid
    (s : BhAgentState) (fs : Fs) (path : String) (mode : FileOpenMode)
    (ty : FileOpenType) (fid : FileId) (s1 : BhAgentState) (fs1 : Fs)
    (s2 : BhAgentState) (t : List Request) (fs2 : Fs)
    (hopen : s.open_path fs path mode ty = .ok (fid, s1, fs1))
    (hchan : s.proc_stdin_ids.get? fid = none ∧
      s.proc_stdout_ids.get? fid = none ∧
      s.proc_stderr_ids.get? fid = none)
    (hclose : s1.close_file fid = .ok s2)
    (hfresh : s.next_file_id + 1 < U64MOD)
    (hnw : s2.next_file_id + totalAlloc ⟨s2, fs2⟩ t < U64MOD) :
    (∀ n, serverStep (.fileRead 0 fid n) (execWorld ⟨s2, fs2⟩ t) =
      (.err .InvalidFileDescriptor, execWorld ⟨s2, fs2⟩ t)) ∧
    (∀ hint, serverStep (.fileReadLines 0 fid hint) (execWorld ⟨s2, fs2⟩ t) =
      (.err .InvalidFileDescriptor, execWorld ⟨s2, fs2⟩ t)) ∧
    (∀ data, serverStep (.fileWrite 0 fid data) (execWorld ⟨s2, fs2⟩ t) =
      (.err .InvalidFileDescriptor, execWorld ⟨s2, fs2⟩ t)) ∧
    (∀ off : Int, ∀ wh : Int, wh = 0 ∨ wh = 1 ∨ wh = 2 →
      serverStep (.fileSeek 0 fid off wh) (execWorld ⟨s2, fs2⟩ t) =
        (.err .InvalidFileDescriptor, execWorld ⟨s2, fs2⟩ t)) ∧
    serverStep (.fileClose 0 fid) (execWorld ⟨s2, fs2⟩ t) =
      (.err .InvalidFileDescriptor, execWorld ⟨s2, fs2⟩ t) := by
  obtain ⟨hc1, hc2, hc3⟩ := hchan
  obtain ⟨rfl, file, rfl⟩ := open_path_ok_state hopen
  simp only [BhAgentState.close_file, Map.get?_insert_self,
    Except.ok.injEq] at hclose
  subst hclose
  have hm : (s.next_file_id + 1) % U64MOD = s.next_file_id + 1 :=
    Nat.mod_eq_of_lt hfresh
  have hdead : fdDead
      { s with
        files := (s.files.insert s.next_file_id file).remove s.next_file_id,
        file_modes := s.file_modes.insert s.next_file_id mode,
        file_types := s.file_types.insert s.next_file_id ty,
        next_file_id := (s.next_file_id + 1) % U64MOD } s.next_file_id := by
    refine ⟨Map.get?_remove_self _ _, hc1, hc2, hc3, ?_⟩
    rw [hm]
    exact Nat.lt_succ_self _
  exact ops_fail_on_dead _ _ (execWorld_fdDead t _ _ hdead hnw)

theorem c4_witness :
    ∃ s1 s2,
      BhAgentState.new.open_path [("f", [7])] "f" .Read .Binary =
        .ok (0, s1, [("f", [7])]) ∧
      s1.close_file 0 = .ok s2 ∧
      (∀ n, serverStep (.fileRead 0 0 n) (execWorld ⟨s2, []⟩ []) =
        (.err .InvalidFileDescriptor, execWorld ⟨s2, []⟩ [])) := by
  refine ⟨_, _, rfl, rfl, ?_⟩
  exact (c4_closed_descriptor_stays_invalid BhAgentState.new [("f", [7])] "f"
    .Read .Binary 0 _ _ _ [] [] rfl ⟨rfl, rfl, rfl⟩ rfl (by decide)
    (by decide)).1

/-- C6: along any trace of requests from the initial state (that stays
within the 64-bit counter range), the `FileId`s issued — to plain files and
to process channels alike, all drawn by `take_file_id` from the single
shared counter — are exactly `0, 1, 2, …`, hence pairwise distinct and
strictly increasing in issue order, and never reused even after a close.
Additionally the accounting is faithful to the step function: a successful
`file_open` responds with exactly its one-element window, and a successful
`run_command` records channel ids exactly within its window. -/
theorem c6_file_ids_distinct_and_increasing (fs : Fs) (t : List Request)
    (hnw : totalAlloc ⟨BhAgentState.new, fs⟩ t < U64MOD) :
    execIssued ⟨BhAgentState.new, fs⟩ t =
      List.range (totalAlloc ⟨BhAgentState.new, fs⟩ t) ∧
    List.Pairwise (· < ·) (execIssued ⟨BhAgentState.new, fs⟩ t) ∧
    (execIssued ⟨BhAgentState.new, fs⟩ t).Nodup ∧
    (∀ (w : World) (env : EnvironmentId) (path : String)
        (mode : FileOpenMode) (ty : FileOpenType) (fid : FileId) (w' : World),
      serverStep (.fileOpen env path mode ty) w = (.ok (.idV fid), w') →
      fid = w.state.next_file_id ∧
      issuedWindow w (.fileOpen env path mode ty) = [fid]) ∧
    (∀ (w : World) (config : RemotePOpenConfig) (pid : ProcessId)
        (w' : World),
      w.state.next_file_id + kOf config < U64MOD →
      serverStep (.runCommand 0 config true) w = (.ok (.idV pid), w') →
      (∀ i, i < kOf config →
        w.state.next_file_id + i ∈ chanKeys w'.state) ∧
      (∀ j, j ∈ chanKeys w'.state → j ∈ chanKeys w.state ∨
        (w.state.next_file_id ≤ j ∧
          j < w.state.next_file_id + kOf config))) := by
  have h0 : (⟨BhAgentState.new, fs⟩ : World).state.next_file_id +
      totalAlloc ⟨BhAgentState.new, fs⟩ t < U64MOD := by
    simpa [BhAgentState.new] using hnw
  have heq : execIssued ⟨BhAgentState.new, fs⟩ t =
      List.range (totalAlloc ⟨BhAgentState.new, fs⟩ t) := by
    rw [execIssued_eq t _ h0]
    simp [BhAgentState.new]
  refine ⟨heq, ?_, ?_, ?_, ?_⟩
  · rw [heq]; exact List.pairwise_lt_range _
  · rw [heq]; exact List.nodup_range _
  · intro w env path mode ty fid w' hstep
    by_cases he : env = 0
    · subst he
      simp only [serverStep] at hstep
      rw [if_neg not_zero_ne_zero] at hstep
      cases hop : w.state.open_path w.fs path mode ty with
      | error e => rw [hop] at hstep; simp at hstep
      | ok tr =>
          obtain ⟨fid0, s', fs'⟩ := tr
          rw [hop] at hstep
          simp only [Prod.mk.injEq, Outcome.ok.injEq, RespVal.idV.injEq]
            at hstep
          obtain ⟨rfl, rfl⟩ := hstep
          obtain ⟨hfid, -⟩ := open_path_ok_state hop
          refine ⟨hfid, ?_⟩
          obtain ⟨pr, hOs⟩ : ∃ pr,
              osOpen (openOptsFor mode) path w.fs = .ok pr := by
            simp only [BhAgentState.open_path] at hop
            cases hOs : osOpen (openOptsFor mode) path w.fs with
            | error e => rw [hOs] at hop; exact absurd hop (by simp)
            | ok pr => exact ⟨pr, rfl⟩
          have hiw : issuedWindow w (.fileOpen 0 path mode ty) =
              List.map (fun i => w.state.next_file_id + i) (List.range 1) := by
            simp [issuedWindow, allocCount, hOs]
          rw [hiw, hfid]
          rfl
    · simp [serverStep, he] at hstep
  · intro w config pid w' hk hstep
    simp only [serverStep] at hstep
    rw [if_neg not_zero_ne_zero] at hstep
    cases hrc : w.state.run_command config true with
    | error e => rw [hrc] at hstep; simp at hstep
    | ok tr =>
        obtain ⟨pid0, s'⟩ := tr
        rw [hrc] at hstep
        simp only [Prod.mk.injEq, Outcome.ok.injEq, RespVal.idV.injEq]
          at hstep
        obtain ⟨-, rfl⟩ := hstep
        obtain ⟨-, -, -, -, -, hpres, hwin⟩ := run_command_ok_state hk hrc
        constructor
        · intro i hi
          exact hwin i hi
        · intro j hj
          by_cases hjw : w.state.next_file_id ≤ j ∧
              j < w.state.next_file_id + kOf config
          · exact Or.inr hjw
          · left
            have hout : j < w.state.next_file_id ∨
                w.state.next_file_id + kOf config ≤ j := by
              rcases Nat.lt_or_ge j w.state.next_file_id with hlo | hhi
              · exact Or.inl hlo
              · rcases Nat.lt_or_ge j (w.state.next_file_id + kOf config)
                  with hlt2 | hge2
                · exact absurd ⟨hhi, hlt2⟩ hjw
                · exact Or.inr hge2
            obtain ⟨q1, q2, q3⟩ := hpres j hout
            have hjj : j ∈ chanKeys s' := hj
            simp only [chanKeys, List.mem_append] at hjj ⊢
            rcases hjj with (hjm | hjm) | hjm
            · refine Or.inl (Or.inl ?_)
              by_contra hmem
              have hn := Map.get?_none_of_not_mem_keys _ _ hmem
              rw [← q1] at hn
              exact Map.not_mem_keys_of_get?_none _ _ hn hjm
            · refine Or.inl (Or.inr ?_)
              by_contra hmem
              have hn := Map.get?_none_of_not_mem_keys _ _ hmem
              rw [← q2] at hn
              exact Map.not_mem_keys_of_get?_none _ _ hn hjm
            · refine Or.inr ?_
              by_contra hmem
              have hn := Map.get?_none_of_not_mem_keys _ _ hmem
              rw [← q3] at hn
              exact Map.not_mem_keys_of_get?_none _ _ hn hjm

theorem c6_witness :
    totalAlloc ⟨BhAgentState.new, []⟩
        [.fileOpen 0 "f" .Write .Binary, .runCommand 0 cfgStdoutOnly true]
      < U64MOD ∧
    execIssued ⟨BhAgentState.new, []⟩
        [.fileOpen 0 "f" .Write .Binary, .runCommand 0 cfgStdoutOnly true] =
      List.range (totalAlloc ⟨BhAgentState.new, []⟩
        [.fileOpen 0 "f" .Write .Binary, .runCommand 0 cfgStdoutOnly true]) :=
  ⟨by decide,
    (c6_file_ids_distinct_and_increasing []
      [.fileOpen 0 "f" .Write .Binary, .runCommand 0 cfgStdoutOnly true]
      (by decide)).1⟩

theorem decodeChunk_ascii (b : Nat) (rest : List Nat) (hb : b < 0x80) :
    decodeChunk (b :: rest) = some ([b], rest) := by
  simp [decodeChunk, chunkLen, hb]

theorem utf8Chunks_ascii (l : List Nat) (h : ∀ b ∈ l, b < 0x80) :
    utf8Chunks l = (l.map (fun b => [b]), []) := by
  induction l with
  | nil => rfl
  | cons b rest ih =>
      show utf8ChunksF (rest.length + 1) (b :: rest) = _
      simp only [utf8ChunksF, decodeChunk_ascii b rest (h b (by simp))]
      rw [show utf8ChunksF rest.length rest = utf8Chunks rest from rfl,
        ih (fun x hx => h x (by simp [hx]))]
      simp

theorem flatten_map_singleton (l : List Nat) :
    (l.map (fun b => [b])).flatten = l := by
  induction l with
  | nil => rfl
  | cons b rest ih => simp [ih]

/-- One iteration of the loop on a fully-ASCII non-empty buffer: the whole
buffer decodes, is pushed, and the loop breaks. -/
theorem readCharsLoop_ascii (fuel m : Nat) (r : ByteStream)
    (buffer : List Nat) (h : ∀ b ∈ buffer, b < 0x80) (hb : buffer ≠ []) :
    readCharsLoop (fuel + 1) r (m + 1) [] buffer =
      (buffer.map (fun b => [b]), r) := by
  simp only [readCharsLoop]
  rw [utf8Chunks_ascii _ h]
  simp [hb]

/-- On an all-ASCII stream `read_chars` returns exactly the first
`min n remaining` characters: the initial read fills the buffer, the whole
buffer decodes, and the loop pushes it and breaks. -/
theorem read_chars_ascii (s : ByteStream) (n : Nat)
    (h : ∀ b ∈ s.data, b < 0x80) :
    (read_chars s n).1 = (s.data.drop s.pos).take n := by
  have hasc : ∀ b ∈ (s.data.drop s.pos).take n, b < 0x80 := fun b hbm =>
    h b (List.drop_subset _ _ (List.take_subset _ _ hbm))
  simp only [read_chars, ByteStream.read]
  cases n with
  | zero => simp [readCharsLoop]
  | succ m =>
      by_cases hb : (s.data.drop s.pos).take (m + 1) = []
      · simp [readCharsLoop, hb]
      · rw [readCharsLoop_ascii _ m _ _ hasc hb]
        exact flatten_map_singleton _

/-- A decoded chunk is self-delimiting: its own bytes are a complete valid
character, so decoding the chunk alone consumes all of it. -/
theorem chunkLen_take {l : List Nat} {k : Nat} (h : chunkLen l = some k) :
    chunkLen (l.take k) = some k := by
  match l with
  | [] => exact Option.noConfusion h
  | [b0] =>
      simp only [chunkLen] at h
      by_cases c1 : b0 < 0x80
      · rw [if_pos c1] at h; injection h with h'; subst h'
        simp [chunkLen, c1]
      · rw [if_neg c1] at h; simp at h
  | [b0, b1] =>
      simp only [chunkLen] at h
      by_cases c1 : b0 < 0x80
      · rw [if_pos c1] at h; injection h with h'; subst h'
        simp [chunkLen, c1]
      · rw [if_neg c1] at h
        by_cases c2 : 0xC2 ≤ b0 ∧ b0 ≤ 0xDF
        · rw [if_pos c2] at h
          by_cases c3 : isCont b1 = true
          · rw [if_pos c3] at h; injection h with h'; subst h'
            simp [chunkLen, c1, c2, c3]
          · rw [if_neg c3] at h; exact Option.noConfusion h
        · rw [if_neg c2] at h; simp at h
  | [b0, b1, b2] =>
      simp only [chunkLen] at h
      by_cases c1 : b0 < 0x80
      · rw [if_pos c1] at h; injection h with h'; subst h'
        simp [chunkLen, c1]
      · rw [if_neg c1] at h
        by_cases c2 : 0xC2 ≤ b0 ∧ b0 ≤ 0xDF
        · rw [if_pos c2] at h
          by_cases c3 : isCont b1 = true
          · rw [if_pos c3] at h; injection h with h'; subst h'
            simp [chunkLen, c1, c2, c3]
          · rw [if_neg c3] at h; exact Option.noConfusion h
        · rw [if_neg c2] at h
          by_cases c4 : 0xE0 ≤ b0 ∧ b0 ≤ 0xEF
          · rw [if_pos c4] at h
            by_cases c5 : ((if b0 = 0xE0 then 0xA0 else 0x80) ≤ b1 ∧
                b1 ≤ (if b0 = 0xED then 0x9F else 0xBF)) ∧ isCont b2 = true
            · rw [if_pos c5] at h; injection h with h'; subst h'
              simp [chunkLen, c1, c2, c4, c5]
            · rw [if_neg c5] at h; exact Option.noConfusion h
          · rw [if_neg c4] at h; simp at h
  | b0 :: b1 :: b2 :: b3 :: rest =>
      simp only [chunkLen] at h
      by_cases c1 : b0 < 0x80
      · rw [if_pos c1] at h; injection h with h'; subst h'
        simp [chunkLen, c1]
      · rw [if_neg c1] at h
        by_cases c2 : 0xC2 ≤ b0 ∧ b0 ≤ 0xDF
        · rw [if_pos c2] at h
          by_cases c3 : isCont b1 = true
          · rw [if_pos c3] at h; injection h with h'; subst h'
            simp [chunkLen, c1, c2, c3]
          · rw [if_neg c3] at h; exact Option.noConfusion h
        · rw [if_neg c2] at h
          by_cases c4 : 0xE0 ≤ b0 ∧ b0 ≤ 0xEF
          · rw [if_pos c4] at h
            by_cases c5 : ((if b0 = 0xE0 then 0xA0 else 0x80) ≤ b1 ∧
                b1 ≤ (if b0 = 0xED then 0x9F else 0xBF)) ∧ isCont b2 = true
            · rw [if_pos c5] at h; injection h with h'; subst h'
              simp [chunkLen, c1, c2, c4, c5]
            · rw [if_neg c5] at h; exact Option.noConfusion h
          · rw [if_neg c4] at h
            by_cases c6 : 0xF0 ≤ b0 ∧ b0 ≤ 0xF4
            · rw [if_pos c6] at h
              by_cases c7 : ((if b0 = 0xF0 then 0x90 else 0x80) ≤ b1 ∧
                  b1 ≤ (if b0 = 0xF4 then 0x8F else 0xBF)) ∧
                  isCont b2 = true ∧ isCont b3 = true
              · rw [if_pos c7] at h; injection h with h'; subst h'
                simp [chunkLen, c1, c2, c4, c6, c7]
              · rw [if_neg c7] at h; exact Option.noConfusion h
            · rw [if_neg c6] at h; exact Option.noConfusion h

/-- Every chunk returned by `decodeChunk` is a complete character encoding:
decoding it again returns the whole chunk with empty remainder. -/
theorem decodeChunk_self {l c rest : List Nat}
    (h : decodeChunk l = some (c, rest)) : decodeChunk c = some (c, []) := by
  simp only [decodeChunk] at h
  cases hk : chunkLen l with
  | none => rw [hk] at h; exact Option.noConfusion h
  | some k =>
      simp only [hk, Option.some.injEq, Prod.mk.injEq] at h
      obtain ⟨hc, hr⟩ := h
      subst hc
      have hlen : (l.take k).length ≤ k := by
        rw [List.length_take]; exact Nat.min_le_left _ _
      simp only [decodeChunk, chunkLen_take hk, List.take_take, Nat.min_self,
        List.drop_eq_nil_of_le hlen]

/-- Every chunk produced by the maximal-prefix decoder is a complete valid
character encoding. -/
theorem utf8ChunksF_chunks_valid (fuel : Nat) (l : List Nat) :
    ∀ c ∈ (utf8ChunksF fuel l).1, decodeChunk c = some (c, []) := by
  induction fuel generalizing l with
  | zero => intro c hc; simp [utf8ChunksF] at hc
  | succ fuel ih =>
      intro c hc
      simp only [utf8ChunksF] at hc
      cases hd : decodeChunk l with
      | none => simp only [hd] at hc; simp at hc
      | some pr =>
          obtain ⟨ch, rest⟩ := pr
          cases hu : utf8ChunksF fuel rest with
          | mk cs rem =>
              simp only [hd, hu, List.mem_cons] at hc
              rcases hc with rfl | hmem
              · exact decodeChunk_self hd
              · exact ih rest c (by rw [hu]; exact hmem)

theorem utf8Chunks_chunks_valid (l : List Nat) :
    ∀ c ∈ (utf8Chunks l).1, decodeChunk c = some (c, []) :=
  utf8ChunksF_chunks_valid l.length l

/-- Loop invariant: every character chunk accumulated by the `read_chars`
loop is a complete valid character encoding — chunks are only ever pushed
from `utf8Chunks` outputs. -/
theorem readCharsLoop_chunks_valid (fuel : Nat) :
    ∀ (r : ByteStream) (n : Nat) (result : List (List Nat))
      (buffer : List Nat),
      (∀ c ∈ result, decodeChunk c = some (c, [])) →
      ∀ c ∈ (readCharsLoop fuel r n result buffer).1,
        decodeChunk c = some (c, []) := by
  induction fuel with
  | zero => intro r n result buffer hres c hc; exact hres c hc
  | succ fuel ih =>
      intro r n result buffer hres c hc
      simp only [readCharsLoop] at hc
      split at hc
      · have hcs : ∀ x ∈ result ++ (utf8Chunks buffer).1,
            decodeChunk x = some (x, []) := by
          intro x hx
          rcases List.mem_append.mp hx with hx | hx
          · exact hres x hx
          · exact utf8Chunks_chunks_valid buffer x hx
        split at hc
        · exact hcs c hc
        · split at hc
          · split at hc
            · exact hcs c hc
            · exact ih _ n _ _ hcs c hc
          · exact hcs c hc
      · exact hres c hc

/-- The universal no-split property: for every stream and every requested
character count, the bytes returned by `read_chars` are the concatenation of
complete valid UTF-8 character encodings — no multi-byte character is ever
returned in part. -/
theorem read_chars_no_split (s : ByteStream) (n : Nat) :
    ∃ cs : List (List Nat), (read_chars s n).1 = cs.flatten ∧
      ∀ c ∈ cs, decodeChunk c = some (c, []) := by
  cases hr : s.read n with
  | mk buffer r1 =>
      cases hl : readCharsLoop (r1.remaining + 1) r1 n [] buffer with
      | mk chunks r2 =>
          refine ⟨chunks, ?_, ?_⟩
          · simp only [read_chars, hr, hl]
          · intro c hc
            exact readCharsLoop_chunks_valid (r1.remaining + 1) r1 n [] buffer
              (by simp) c (by rw [hl]; exact hc)

/-! ## Claims -/

/-- C7 counterexample: on the stream for `"😀a"` (bytes
`[240, 159, 152, 128, 97]`, 2 characters in total) a request for 2
characters returns only the emoji's 4 bytes — one character — because the
loop breaks as soon as an accumulated chunk decodes completely, not the
UTF-8 encoding of the first `min(N, total) = 2` characters (all 5 bytes). -/
theorem c7_counterexample :
    (read_chars ⟨[240, 159, 152, 128, 97], 0⟩ 2).1 = [240, 159, 152, 128] ∧
    utf8Chunks [240, 159, 152, 128, 97] =
      ([[240, 159, 152, 128], [97]], []) ∧
    [240, 159, 152, 128] ≠ [240, 159, 152, 128, 97] := by decide

/-- C7 (amended): a text-mode read of N characters never splits a multi-byte
character — for every stream and every N the returned bytes are a
concatenation of complete valid UTF-8 character encodings (each chunk decodes
exactly to itself with empty remainder).  From an all-ASCII stream it returns
exactly the first `min(N, remaining)` characters; for general streams it may
stop with fewer characters than `min(N, total)` (it breaks early when an
accumulated chunk decodes completely): on `"a😀b"` with a request for 2
characters it returns exactly the bytes of `"a😀"`. -/
theorem c7_read_chars_character_prefix :
    (∀ (s : ByteStream) (n : Nat), ∃ cs : List (List Nat),
      (read_chars s n).1 = cs.flatten ∧
      ∀ c ∈ cs, decodeChunk c = some (c, [])) ∧
    (∀ (s : ByteStream) (n : Nat), (∀ b ∈ s.data, b < 0x80) →
      (read_chars s n).1 = (s.data.drop s.pos).take n) ∧
    (read_chars ⟨[97, 240, 159, 152, 128, 98], 0⟩ 2).1 =
      [97, 240, 159, 152, 128] :=
  ⟨read_chars_no_split, read_chars_ascii, by decide⟩

theorem c7_witness :
    (∃ cs : List (List Nat),
      (read_chars ⟨[237, 160, 128], 0⟩ 3).1 = cs.flatten ∧
      ∀ c ∈ cs, decodeChunk c = some (c, [])) ∧
    (∀ b ∈ ([97, 98, 99, 100] : List Nat), b < 0x80) ∧
    (read_chars ⟨[97, 98, 99, 100], 0⟩ 2).1 = [97, 98] :=
  ⟨ c7_read_chars_character_prefix.1 ⟨[237, 160, 128], 0⟩ 3,
   by decide,
   by
    have h := c7_read_chars_character_prefix.2.1 ⟨[97, 98, 99, 100], 0⟩ 2
      (by decide)
    simpa using h⟩

/-- C5: every remote operation that takes an `EnvironmentId`, invoked with
`env_id ≠ 0`, returns `InvalidEnvironmentId` and leaves the whole world
(state and filesystem) unchanged. -/
theorem c5_nonzero_env_rejected_without_mutation (req : Request) (w : World)
    (h : req.envId ≠ 0) :
    serverStep req w = (.err .InvalidEnvironmentId, w) := by
  cases req <;> simp_all [serverStep, Request.envId]

theorem c5_witness :
    Request.envId (.fileRead 7 0 4) ≠ 0 ∧
      serverStep (.fileRead 7 0 4) ⟨BhAgentState.new, []⟩ =
        (.err .InvalidEnvironmentId, ⟨BhAgentState.new, []⟩) :=
  ⟨by decide, c5_nonzero_env_rejected_without_mutation _ _ (by decide)⟩

/-- C2: evaluating `open_path` in `Write` mode on an existing non-empty
file.  The source sets `write(true).create(true)` but not `truncate`, so the
previous 3-byte content survives the open: both the opened handle and the
path still hold `[1, 2, 3]`, refuting "length is zero before any write". -/
theorem c2_write_open_does_not_truncate :
    (openOptsFor .Write).truncate = false ∧
    ∃ st fs',
      BhAgentState.new.open_path [("f", [1, 2, 3])] "f" .Write .Binary =
        .ok (0, st, fs') ∧
      st.files.get? 0 = some ⟨[1, 2, 3], 0⟩ ∧
      fs'.get? "f" = some [1, 2, 3] :=
  ⟨rfl, _, _, rfl, rfl, rfl⟩

/-- C1: evaluating the process-channel bookkeeping at two failing inputs.
First, with only stderr piped, `run_command` records the stderr `FileId` in
the *stdout* table (`proc_stderr_ids` stays empty) and `get_process_channel`
on Stderr errors.  Second, after one prior `file_open`, a `run_command` with
stdout piped records `FileId` 1 for process 0, but `get_process_channel`
looks the `FileId`-keyed table up by the `ProcessId`, finds nothing, and
errors instead of returning 1. -/
theorem c1_get_process_channel_fails :
    (∃ st, BhAgentState.new.run_command cfgStderrOnly true = .ok (0, st) ∧
      st.proc_stderr_ids = [] ∧
      st.proc_stdout_ids = [(0, 0)] ∧
      st.get_process_channel 0 .Stderr = .error .InvalidProcessId) ∧
    (∃ st1 fs1 st2,
      BhAgentState.new.open_path [("f", [])] "f" .Read .Binary =
        .ok (0, st1, fs1) ∧
      st1.run_command cfgStdoutOnly true = .ok (0, st2) ∧
      st2.proc_stdout_ids = [(1, 0)] ∧
      st2.get_process_channel 0 .Stdout = .error .InvalidProcessId) :=
  ⟨⟨_, rfl, rfl, rfl, rfl⟩, ⟨_, _, _, rfl, rfl, rfl, rfl⟩⟩

/-- C10: evaluating `do_mut_operation` at a reachable state on which one of
its `unwrap`s fires.  After `run_command` with only stderr piped, the stderr
`FileId` 0 sits in `proc_stdout_ids`; resolving it finds process 0, whose
`stdout` is `None`, and the source's `proc_binding.stdout.as_mut().unwrap()`
panics. -/
theorem c10_channel_resolution_panics :
    ∃ st, BhAgentState.new.run_command cfgStderrOnly true = .ok (0, st) ∧
      st.do_mut_operation 0 (fun f => ((), f)) = .panicked :=
  ⟨_, rfl, rfl⟩

/-- C8: the line splitter cuts at every LF/CR occurrence, discards all empty
segments, and returns the non-empty segments in order (proved as equality
with the spec-side maximal-run decomposition `linesSpec`); on the bytes of
`"line1\nline2\r\nline3\rline4\n"` it yields exactly
`["line1", "line2", "line3", "line4"]`. -/
theorem c8_split_lines_drops_empty_segments :
    (∀ buffer : List Nat, split_lines buffer = linesSpec buffer) ∧
    split_lines c8Input =
      [[108, 105, 110, 101, 49], [108, 105, 110, 101, 50],
       [108, 105, 110, 101, 51], [108, 105, 110, 101, 52]] ∧
    read_lines ⟨c8Input, 0⟩ =
      ([[108, 105, 110, 101, 49], [108, 105, 110, 101, 50],
        [108, 105, 110, 101, 51], [108, 105, 110, 101, 52]],
       ⟨c8Input, c8Input.length⟩) :=
  ⟨split_lines_eq_linesSpec, by decide, by decide⟩

/-- C9: closing a descriptor removes it from the open-file table only; the
mode and type tables keep their entries, so the mode queries still succeed
after close and answer according to the original open mode. -/
theorem c9_close_keeps_mode_and_type_tables
    (s : BhAgentState) (fs fs2 : Fs) (path : String) (mode : FileOpenMode)
    (ty : FileOpenType) (fid : FileId) (s1 : BhAgentState) (fs1 : Fs)
    (s2 : BhAgentState)
    (hopen : s.open_path fs path mode ty = .ok (fid, s1, fs1))
    (hclose : s1.close_file fid = .ok s2) :
    s2.file_modes = s1.file_modes ∧
    s2.file_types = s1.file_types ∧
    s2.files.get? fid = none ∧
    serverStep (.fileIsReadable 0 fid) ⟨s2, fs2⟩ =
      (.ok (.boolV ([FileOpenMode.Read, .Update].contains mode)), ⟨s2, fs2⟩) ∧
    serverStep (.fileIsWritable 0 fid) ⟨s2, fs2⟩ =
      (.ok (.boolV ([FileOpenMode.Write, .ExclusiveWrite,
        .Update, .Append].contains mode)), ⟨s2, fs2⟩) := by
  simp only [BhAgentState.open_path] at hopen
  cases hOs : osOpen (openOptsFor mode) path fs with
  | error e => rw [hOs] at hopen; simp at hopen
  | ok pr =>
    rw [hOs] at hopen
    obtain ⟨file, fs'⟩ := pr
    simp only [BhAgentState.takeFileId, Except.ok.injEq, Prod.mk.injEq] at hopen
    obtain ⟨rfl, rfl, rfl⟩ := hopen
    simp only [BhAgentState.close_file, Map.get?_insert_self] at hclose
    simp only [Except.ok.injEq] at hclose
    subst hclose
    refine ⟨rfl, rfl, Map.get?_remove_self _ _, ?_, ?_⟩ <;>
      simp [serverStep, BhAgentState.file_has_any_mode, Map.get?_insert_self]

theorem c9_witness :
    ∃ s1 s2,
      BhAgentState.new.open_path [("g", [5])] "g" .Update .Text =
        .ok (0, s1, [("g", [5])]) ∧
      s1.close_file 0 = .ok s2 ∧
      (s2.file_modes = s1.file_modes ∧
       s2.file_types = s1.file_types ∧
       s2.files.get? 0 = none ∧
       serverStep (.fileIsReadable 0 0) ⟨s2, []⟩ =
         (.ok (.boolV ([FileOpenMode.Read, .Update].contains .Update)),
           ⟨s2, []⟩) ∧
       serverStep (.fileIsWritable 0 0) ⟨s2, []⟩ =
         (.ok (.boolV ([FileOpenMode.Write, .ExclusiveWrite, .Update,
           .Append].contains .Update)), ⟨s2, []⟩)) := by
  refine ⟨_, _, rfl, rfl, ?_⟩
  exact c9_close_keeps_mode_and_type_tables BhAgentState.new [("g", [5])] []
    "g" .Update .Text 0 _ [("g", [5])] _ rfl rfl

/-- C3: evaluating a binary `file_read` past end-of-stream.  The source
reads into `vec![0u8; n]` and returns the whole buffer without truncating it
to the bytes actually read, so after seeking to the end a 3-byte read
returns `[0, 0, 0]` instead of zero bytes. -/
theorem c3_binary_read_returns_zero_padded_buffer :
    read_generic ⟨[10, 20], 2⟩ 3 .Binary = ([0, 0, 0], ⟨[10, 20], 2⟩) ∧
    ∃ st fs',
      BhAgentState.new.open_path [("f", [10, 20])] "f" .Read .Binary =
        .ok (0, st, fs') ∧
      ∃ w2, serverStep (.fileSeek 0 0 0 2) ⟨st, fs'⟩ = (.ok .unitV, w2) ∧
        (serverStep (.fileRead 0 0 3) w2).1 = .ok (.bytesV [0, 0, 0]) :=
  ⟨rfl, _, _, rfl, _, rfl, rfl⟩

end BhAgent
